import Mathlib

/-!
Verification of the lua-json converter (src/index.js): a shallow embedding of
the serializer (`format`, `formatLuaString`, `formatLuaKey`), the deserializer
(`luaAstToJson`, `escape`) and, modelled from the spec, the external Lua
parser that `parse` delegates to.  JavaScript strings are Lean `String`s,
JavaScript numbers are modelled as integers (plus a NaN marker), and the
JavaScript value universe seen by the library is the inductive `Value`.
-/

namespace LuaJson

/-- JavaScript numbers as seen by this library.  The library only ever
builds and renders integral numbers, so the numeric payload is an `Int`;
`nan` models the JS `NaN` produced by coercing a non-numeric operand. -/
inductive JsNumber where
  | int (n : Int)
  | nan
deriving DecidableEq, Repr

/-- The JavaScript values flowing through src/index.js.

* `vnull` — JS `null` (the model of Lua `nil`).
* `vbool`, `vnum`, `vstr` — primitive leaves.
* `varr` — a JS array (Sequence).
* `vobj` — a plain JS object in iteration order (Mapping); JS object key
  coercion to strings is applied at construction.
* `vprop k v` — the object `\x7btype: 'property', key: k, value: v\x7d`
  produced by the deserializer for a bracket-keyed table field
  (PropertyEntry).
* `vpair k v` — the internal object
  `\x7b__internal_table_key: true, key: k, value: v\x7d` built for
  `TableKey`/`TableKeyString` nodes (never exposed to callers).
* `vundef` — JS `undefined` (not an object; `format` throws on it).
* `vfun` — a function or similar non-plain object: lodash `isObject` is
  true and it has no own enumerable keys, so `isEmpty` is true. -/
inductive Value where
  | vnull
  | vbool (b : Bool)
  | vnum (n : JsNumber)
  | vstr (s : String)
  | varr (elems : List Value)
  | vobj (fields : List (String × Value))
  | vprop (key : Value) (value : Value)
  | vpair (key : Value) (value : Value)
  | vundef
  | vfun

namespace Value

/-- lodash `isNull` (true only for `null`, not `undefined`). -/
def isNullV : Value → Bool
  | .vnull => true
  | _ => false

/-- lodash `isBoolean`. -/
def isBooleanV : Value → Bool
  | .vbool _ => true
  | _ => false

/-- lodash `isNumber`. -/
def isNumberV : Value → Bool
  | .vnum _ => true
  | _ => false

/-- lodash `isString`. -/
def isStringV : Value → Bool
  | .vstr _ => true
  | _ => false

/-- lodash `isUndefined` (true only for `undefined`). -/
def isUndefV : Value → Bool
  | .vundef => true
  | _ => false

/-- lodash `isArray`. -/
def isArrayV : Value → Bool
  | .varr _ => true
  | _ => false

/-- lodash `isObject`: true for arrays, plain objects, the two tagged
objects and functions; false for every primitive. -/
def isObjectV : Value → Bool
  | .varr _ => true
  | .vobj _ => true
  | .vprop _ _ => true
  | .vpair _ _ => true
  | .vfun => true
  | _ => false

/-- JS truthiness of a value (`if (x)`): `false`, `0`, `NaN`, the empty
string, `null` and `undefined` are falsy, every object is truthy. -/
def truthy : Value → Bool
  | .vnull => false
  | .vundef => false
  | .vbool b => b
  | .vnum (.int n) => n != 0
  | .vnum .nan => false
  | .vstr s => s != ""
  | _ => true

end Value

open Value

/-- Digit expansion worker: `fuel` bounds the number of divisions by ten
(any `fuel` above the digit count gives the digits of `n`, most
significant first). -/
def natToCharsGo : Nat → Nat → List Char
  | 0, _ => []
  | fuel + 1, n =>
    if n < 10 then [Char.ofNat (48 + n)]
    else natToCharsGo fuel (n / 10) ++ [Char.ofNat (48 + n % 10)]

/-- Decimal digits of a natural number, most significant first
(the digits of JS `Number.prototype.toString` for a non-negative
integral number). -/
def natToChars (n : Nat) : List Char :=
  natToCharsGo (n + 1) n

/-- JS `Number.prototype.toString` on an integral number. -/
def intToString (n : Int) : String :=
  if n < 0 then ⟨'-' :: natToChars n.natAbs⟩ else ⟨natToChars n.natAbs⟩

/-- JS string rendering of a number (`toString`, also used by template
literals): digits, or the text `NaN`. -/
def numToString : JsNumber → String
  | .int n => intToString n
  | .nan => "NaN"

mutual

/-- JS `String(value)` / template-literal coercion, as far as this library
can observe it: primitives print their usual text, arrays join their
members with commas (`null` and `undefined` members print as the empty
string), any other object prints `[object Object]`. -/
def jsToString : Value → String
  | .vnull => "null"
  | .vundef => "undefined"
  | .vbool b => if b then "true" else "false"
  | .vnum n => numToString n
  | .vstr s => s
  | .varr xs => jsJoinComma xs
  | .vobj _ => "[object Object]"
  | .vprop _ _ => "[object Object]"
  | .vpair _ _ => "[object Object]"
  | .vfun => "function"

/-- `Array.prototype.join(',')` on the element list. -/
def jsJoinComma : List Value → String
  | [] => ""
  | [x] => (if x.isNullV || x.isUndefV then "" else jsToString x)
  | x :: xs =>
      (if x.isNullV || x.isUndefV then "" else jsToString x) ++ "," ++ jsJoinComma xs

end

/-- lodash `repeat(s, n)`: `n` copies of `s`, the empty string when `n` is
not positive. -/
def jsRepeat (s : String) (n : Int) : String :=
  ⟨(List.replicate n.toNat s.data).flatten⟩

/-- Replacement worker: each step consumes at least one character, so
any `fuel` at or above the input length behaves like unbounded
recursion.  On a match the whole pattern is consumed (the head
explicitly, the remaining `pat.length - 1` characters by the drop). -/
def jsReplaceAllGo (pat rep : List Char) : Nat → List Char → List Char
  | _, [] => []
  | 0, l => l
  | fuel + 1, c :: rest =>
    if pat ≠ [] ∧ (c :: rest).take pat.length = pat then
      rep ++ jsReplaceAllGo pat rep fuel (rest.drop (pat.length - 1))
    else
      c :: jsReplaceAllGo pat rep fuel rest

/-- Global, left-to-right, non-overlapping replacement of the literal
character pattern `pat` by `rep` (the behavior of
`String.prototype.replace` with a global regex matching the fixed text
`pat`).  An empty pattern never matches. -/
def jsReplaceAll (pat rep s : List Char) : List Char :=
  jsReplaceAllGo pat rep s.length s

/-- String version of `jsReplaceAll`. -/
def jsReplaceAllS (pat rep s : String) : String :=
  ⟨jsReplaceAll pat.data rep.data s.data⟩

/-- The deserializer's string-escaping step on a string
(src/index.js lines 117-123): four chained global replaces — each pair
of backslashes becomes four backslashes, each backslash-r two-character
sequence gains two leading backslashes, each backslash-n likewise, and
each raw newline character becomes backslash-n. -/
def escapeString (s : String) : String :=
  jsReplaceAllS "\\n" "\\\\n"
    (jsReplaceAllS "\\r" "\\\\r"
      (jsReplaceAllS "\\\\" "\\\\\\\\" s))
  |> jsReplaceAllS "\n" "\\n"

/-- `Array.prototype.join(sep)` on a list of strings. -/
def joinWith (sep : String) : List String → String
  | [] => ""
  | [x] => x
  | x :: xs => x ++ sep ++ joinWith sep xs

/-- Property access `fields[k]` on the field list of a JS object: the
first binding of `k`, or `undefined` when `k` is absent. -/
def lookupField (fs : List (String × Value)) (k : String) : Value :=
  ((fs.find? (fun p => p.1 == k)).map Prod.snd).getD Value.vundef

/-- Lookup in an already-rendered entry list. -/
def lookupEntry (es : List (String × String)) (k : String) : Option String :=
  (es.find? (fun p => p.1 == k)).map Prod.snd

/-- The strict comparison `x === \x27property\x27`. -/
def isPropertyTag : Value → Bool
  | .vstr s => s == "property"
  | _ => false

/-- Payload of a string value (only applied where the source has already
established `isString`). -/
def getStrV : Value → String
  | .vstr s => s
  | _ => ""

/-- Whether `value && value.replace` is truthy while `value.replace` is
not callable, so that the guarded call in `escape` throws.  Among the
values the deserializer builds, `replace` is a function only on a
string; the only other value whose `replace` access can be truthy is a
plain object carrying a `replace` binding (arrays, booleans, numbers,
`null`, and the fixed-key pair/property objects have none).  A
deserialized table never binds a function, so a truthy binding is
always a non-function. -/
def escapeFails : Value → Bool
  | .vobj fs => (lookupField fs "replace").truthy
  | _ => false

/-- src/index.js line 117 `escape`: the guard is `value && value.replace`
being truthy.  A nonempty string takes the replace chain
(`escapeString`); a falsy value, or one whose `replace` access is not
truthy, is returned unchanged (the empty string is falsy, and the
replace chain is the identity on it, so the string case is uniform); a
non-string with a truthy `replace` binding calls a non-function and
throws a `TypeError`. -/
def escape : Value → Except String Value
  | .vstr s => .ok (.vstr (escapeString s))
  | .vobj fs =>
    if (lookupField fs "replace").truthy then
      .error "TypeError: value.replace is not a function"
    else .ok (.vobj fs)
  | v => .ok v

/-- First character class of the key regex `[a-zA-Z_]`. -/
def isIdentStartCh (c : Char) : Bool :=
  c.isAlpha || c == '_'

/-- Continuation character class of the key regex `[a-zA-Z_0-9]`. -/
def isIdentCh (c : Char) : Bool :=
  c.isAlpha || c.isDigit || c == '_'

/-- `string.match(/^[a-zA-Z_][a-zA-Z_0-9]*$/)` viewed as a boolean: an
anchored two-state scan of the string (state 0 = nothing read,
1 = accepting, 2 = dead). -/
def identRegexMatch (s : String) : Bool :=
  (s.data.foldl
    (fun st c =>
      match st with
      | 0 => if isIdentStartCh c then 1 else 2
      | 1 => if isIdentCh c then 1 else 2
      | _ => 2)
    (0 : Nat)) == 1

/-- src/index.js line 4 `formatLuaString`: wrap in the configured quote
character and backslash-escape exactly that quote character inside. -/
def formatLuaString (s : String) (singleQuote : Bool) : String :=
  if singleQuote then "\x27" ++ jsReplaceAllS "\x27" "\\\x27" s ++ "\x27"
  else "\"" ++ jsReplaceAllS "\"" "\\\"" s ++ "\""

/-- src/index.js line 6 `formatLuaKey`: identifier-shaped keys stay bare,
anything else becomes a bracketed quoted string. -/
def formatLuaKey (s : String) (singleQuote : Bool) : String :=
  if identRegexMatch s then s else "[" ++ formatLuaString s singleQuote ++ "]"

/-- The `options` object of `format`.  Fields hold raw JS values so that
the normalization on lines 9-12 (and its effect on the caller's object,
claim C10) can be stated; `vundef` is an absent field. -/
structure FormatOptions where
  eol : Value := .vundef
  singleQuote : Value := .vundef
  spaces : Value := Value.vundef

/-- The in-place normalization of the options object
(src/index.js lines 10-12): `eol` falls back to a newline unless it is a
string, `singleQuote` to `true` unless boolean, and `spaces` to `2`
unless it is `null`, a number or a string. -/
def normalizeOptions (o : FormatOptions) : FormatOptions where
  eol := if o.eol.isStringV then o.eol else .vstr "\n"
  singleQuote := if o.singleQuote.isBooleanV then o.singleQuote else .vbool true
  spaces :=
    if o.spaces.isNullV || o.spaces.isNumberV || o.spaces.isStringV then o.spaces
    else .vnum (.int 2)

/-- The default `options` parameter
`\x7beol: newline, singleQuote: true, spaces: 2\x7d`. -/
def defaultFormatOptions : FormatOptions :=
  ⟨.vstr "\n", .vbool true, .vnum (.int 2)⟩

/-- The `eol` text captured on line 10 (after normalization it is always
a string). -/
def eolS (o : FormatOptions) : String := getStrV o.eol

/-- The indent in front of an element at depth `d`:
`repeat(\x27 \x27, spaces * d)` for a numeric `spaces` and
`repeat(spaces, d)` for a string one. -/
def ind (o : FormatOptions) (d : Nat) : String :=
  match o.spaces with
  | .vnum (.int n) => jsRepeat " " (n * (d : Int))
  | .vstr s => jsRepeat s (d : Int)
  | _ => ""

/-- The key used inside a property fragment:
`isString(value.key) ? \x60\x27$\x7bvalue.key\x7d\x27\x60 : value.key` —
a string key is wrapped in literal single quotes (regardless of the
`singleQuote` option and without escaping), anything else is coerced by
the template literal. -/
def propKeyText (k : Value) : String :=
  if k.isStringV then "\x27" ++ getStrV k ++ "\x27" else jsToString k

mutual

/-- The inner `rec(value, i)` of `format` (src/index.js lines 14-58),
run over normalized options.  `vprop` and `vpair` are JS objects whose
own enumerable keys are `type`/`key`/`value` and
`__internal_table_key`/`key`/`value` respectively, so the object branch
is spelled out for them with exactly the entries `keys(value)` yields. -/
def recV (o : FormatOptions) : Value → Nat → Except String String
  | .vnull, _ => .ok "nil"
  | .vbool b, _ => .ok (if b then "true" else "false")
  | .vnum n, _ => .ok (numToString n)
  | .vstr s, _ => .ok (formatLuaString s (truthy o.singleQuote))
  | .varr xs, i =>
    if xs.isEmpty then .ok "\x7b\x7d"
    else if truthy o.spaces then do
      let elems ← recArr o xs (i + 1)
      .ok ("\x7b" ++ eolS o ++
        joinWith (eolS o) (elems.map (fun e => ind o (i + 1) ++ e ++ ",")) ++
        eolS o ++ ind o i ++ "\x7d")
    else do
      let elems ← recArr o xs (i + 1)
      .ok ("\x7b" ++ String.join (elems.map (fun e => e ++ ",")) ++ "\x7d")
  | .vobj fs, i =>
    if fs.isEmpty then .ok "\x7b\x7d"
    else if truthy o.spaces then do
      let entries ← recObj o fs i
      let res := eolS o ++
        joinWith (eolS o) (entries.map (fun kv =>
          ind o (i + 1) ++ formatLuaKey kv.1 (truthy o.singleQuote) ++ " = " ++ kv.2 ++ ",")) ++
        eolS o ++ ind o i
      if isPropertyTag (lookupField fs "type") then
        match lookupEntry entries "value" with
        | some vtext => .ok ("[" ++ propKeyText (lookupField fs "key") ++ "] = " ++ vtext)
        | none => .error "can\x27t format undefined"
      else .ok ("\x7b" ++ res ++ "\x7d")
    else do
      let entries ← recObj o fs i
      .ok ("\x7b" ++ String.join (entries.map (fun kv =>
        formatLuaKey kv.1 (truthy o.singleQuote) ++ "=" ++ kv.2 ++ ",")) ++ "\x7d")
  | .vprop k v, i =>
    if truthy o.spaces then do
      let _kt ← recV o k (i + 1)
      let vt ← recV o v (i + 1)
      .ok ("[" ++ propKeyText k ++ "] = " ++ vt)
    else do
      let kt ← recV o k (i + 1)
      let vt ← recV o v (i + 1)
      .ok ("\x7btype=" ++ formatLuaString "property" (truthy o.singleQuote) ++
        ",key=" ++ kt ++ ",value=" ++ vt ++ ",\x7d")
  | .vpair k v, i =>
    if truthy o.spaces then do
      let kt ← recV o k (i + 1)
      let vt ← recV o v (i + 1)
      .ok ("\x7b" ++ eolS o ++
        joinWith (eolS o)
          [ind o (i + 1) ++ "__internal_table_key = true,",
           ind o (i + 1) ++ "key = " ++ kt ++ ",",
           ind o (i + 1) ++ "value = " ++ vt ++ ","] ++
        eolS o ++ ind o i ++ "\x7d")
    else do
      let kt ← recV o k (i + 1)
      let vt ← recV o v (i + 1)
      .ok ("\x7b__internal_table_key=true,key=" ++ kt ++ ",value=" ++ vt ++ ",\x7d")
  | .vfun, _ => .ok "\x7b\x7d"
  | .vundef, _ => .error "can\x27t format undefined"

/-- `value.map(e => rec(e, i))` with exception propagation. -/
def recArr (o : FormatOptions) : List Value → Nat → Except String (List String)
  | [], _ => .ok []
  | x :: xs, i => do
    let t ← recV o x i
    let ts ← recArr o xs i
    .ok (t :: ts)

/-- `keys(value).map(key => ... rec(value[key], i + 1) ...)` with
exception propagation, keeping the raw key and the rendered value. -/
def recObj (o : FormatOptions) : List (String × Value) → Nat → Except String (List (String × String))
  | [], _ => .ok []
  | (k, v) :: fs, i => do
    let t ← recV o v (i + 1)
    let ts ← recObj o fs i
    .ok ((k, t) :: ts)

end

/-- src/index.js `format`: normalize the options object in place, render
the value, and prefix `return` (plus a space only when indentation is
on).  The returned pair is (the caller's options object after the call,
the produced text or the thrown error). -/
def format (value : Value) (options : FormatOptions) : FormatOptions × Except String String :=
  let o := normalizeOptions options
  (o, (recV o value 0).map (fun t =>
    "return" ++ (if truthy o.spaces then " " else "") ++ t))

/-! ## The deserializer -/

/-- The Lua abstract-syntax trees consumed by `luaAstToJson`: one
constructor per node type of the recognized set (spec section 4.2), plus
`unknown` for a node whose `type` tag is any other string.  Numeric
literal payloads are modelled as integers, string literal payloads carry
the already-decoded string. -/
inductive LuaAst where
  | chunk (body : List LuaAst)
  | returnStatement (arguments : List LuaAst)
  | localStatement (init : List LuaAst)
  | tableConstructorExpression (fields : List LuaAst)
  | tableKey (key value : LuaAst)
  | tableKeyString (key value : LuaAst)
  | tableValue (value : LuaAst)
  | unaryExpression (operator : String) (argument : LuaAst)
  | identifier (name : String)
  | nilLiteral
  | booleanLiteral (b : Bool)
  | numericLiteral (n : Int)
  | stringLiteral (s : String)
  | unknown (tag : String)

namespace LuaAst

/-- The node's `type` tag text. -/
def tag : LuaAst → String
  | chunk _ => "Chunk"
  | returnStatement _ => "ReturnStatement"
  | localStatement _ => "LocalStatement"
  | tableConstructorExpression _ => "TableConstructorExpression"
  | tableKey _ _ => "TableKey"
  | tableKeyString _ _ => "TableKeyString"
  | tableValue _ => "TableValue"
  | unaryExpression _ _ => "UnaryExpression"
  | identifier _ => "Identifier"
  | nilLiteral => "NilLiteral"
  | booleanLiteral _ => "BooleanLiteral"
  | numericLiteral _ => "NumericLiteral"
  | stringLiteral _ => "StringLiteral"
  | unknown t => t

/-- Truthiness of `field.key`: only `TableKey` and `TableKeyString`
nodes carry a `key` property (on every other node the access yields
`undefined`). -/
def hasKey : LuaAst → Bool
  | tableKey _ _ => true
  | tableKeyString _ _ => true
  | _ => false

end LuaAst

/-- A simple model of JS `ToNumber` on a string (used only through unary
minus): optional whitespace-free sign and decimal digits give the
integer, the empty string gives `0`, anything else `NaN`.  (Fractional,
hex and padded forms are irrelevant here: the deserializer only meets
strings through literals it then negates.) -/
def strToNumber (s : String) : JsNumber :=
  if s = "" then .int 0
  else
    match s.data with
    | '-' :: ds => if ds ≠ [] ∧ ds.all Char.isDigit then
        .int (-(ds.foldl (fun a c => a * 10 + (c.toNat - 48)) 0 : Nat)) else .nan
    | ds => if ds.all Char.isDigit then
        .int ((ds.foldl (fun a c => a * 10 + (c.toNat - 48)) 0 : Nat)) else .nan

/-- JS `ToNumber` of a value, as used by the unary `-` on line 70:
numbers pass through, `null` is `0`, booleans are `0`/`1`, strings parse
via `strToNumber`, arrays coerce through their string form, and other
objects (plus `undefined`) are `NaN`. -/
def jsToNumber : Value → JsNumber
  | .vnum n => n
  | .vnull => .int 0
  | .vbool b => .int (if b then 1 else 0)
  | .vstr s => strToNumber s
  | .varr xs => strToNumber (jsJoinComma xs)
  | _ => .nan

/-- JS unary minus: `ToNumber` then negation. -/
def jsNeg (v : Value) : Value :=
  .vnum (match jsToNumber v with
    | .int n => .int (-n)
    | .nan => .nan)

/-- Property access on an arbitrary deserialized value, as used by the
destructuring `const \x7b key, value \x7d = luaAstToJson(field)` and the
`value.__internal_table_key` test: the tagged pair and property objects
expose their fields, plain objects use their field list, and every other
value yields `undefined`. -/
def lookupPairField (v : Value) (k : String) : Value :=
  match v with
  | .vpair key val =>
    if k = "key" then key
    else if k = "value" then val
    else if k = "__internal_table_key" then .vbool true
    else .vundef
  | .vprop key val =>
    if k = "type" then .vstr "property"
    else if k = "key" then key
    else if k = "value" then val
    else .vundef
  | .vobj fs => lookupField fs k
  | _ => Value.vundef

/-- One JS object assignment `result[k] = v`: an existing binding keeps
its position but takes the new value, a new key is appended. -/
def insertAssign (fs : List (String × Value)) (k : String) (v : Value) :
    List (String × Value) :=
  if fs.any (fun p => p.1 == k) then
    fs.map (fun p => if p.1 == k then (k, v) else p)
  else fs ++ [(k, v)]

/-- lodash `fromPairs`: fold the pair list into an object by repeated
assignment. -/
def fromPairsList (ps : List (String × Value)) : List (String × Value) :=
  ps.foldl (fun acc p => insertAssign acc p.1 p.2) []

/-- Truthiness of `ast.fields[0] && ast.fields[0].key` (line 83): a
first field exists and carries a key. -/
def firstFieldKeyed (fields : List LuaAst) : Bool :=
  (fields.head?.map LuaAst.hasKey).getD false

/-- The sequence branch's `map` callback (lines 94-97) over the
surviving deserialized values, with the escaping step's exception
propagated: a value that carried the internal key/value pair construct
wraps as a PropertyEntry with its `value` escaped, any other value is
escaped directly; the first throwing escape aborts the walk. -/
def seqElems : List Value → Except String (List Value)
  | [] => .ok []
  | v :: vs => do
    let e ←
      (if (lookupPairField v "__internal_table_key").truthy then do
        let ev ← escape (lookupPairField v "value")
        Except.ok (.vprop (lookupPairField v "key") ev)
      else escape v)
    let es ← seqElems vs
    .ok (e :: es)

mutual

/-- src/index.js `luaAstToJson` (lines 63-113): reduce a parsed Lua tree
to a JS value.  Thrown errors are the `Except.error` results: the
`can\x27t parse` message for an unrecognized node (a `UnaryExpression`
with an operator other than `-` falls through every branch to the same
throw), and the `TypeError` a `Chunk` with an empty body raises when
`ast.body[0]` is `undefined`. -/
def luaAstToJson : LuaAst → Except String Value
  | .nilLiteral => .ok .vnull
  | .booleanLiteral b => .ok (.vbool b)
  | .numericLiteral n => .ok (.vnum (.int n))
  | .stringLiteral s => .ok (.vstr s)
  | .unaryExpression op a =>
    if op = "-" then do
      let v ← luaAstToJson a
      .ok (jsNeg v)
    else .error "can\x27t parse UnaryExpression"
  | .identifier n => .ok (.vstr n)
  | .tableKey k v => do
    let kj ← luaAstToJson k
    let vj ← luaAstToJson v
    .ok (.vpair kj vj)
  | .tableKeyString k v => do
    let kj ← luaAstToJson k
    let vj ← luaAstToJson v
    .ok (.vpair kj vj)
  | .tableValue v => luaAstToJson v
  | .tableConstructorExpression fields =>
    if firstFieldKeyed fields then do
      let pairs ← luaAstFieldsToPairs fields
      let object := fromPairsList pairs
      .ok (if object.isEmpty then .varr [] else .vobj object)
    else do
      let vs ← luaAstListToJson fields
      let elems ← seqElems (vs.filter (fun v => !v.isNullV))
      .ok (.varr elems)
  | .localStatement init => do
    let values ← luaAstListToJson init
    .ok (match values with
      | [v] => v
      | vs => .varr vs)
  | .returnStatement args => do
    let values ← luaAstListToJson args
    .ok (match values with
      | [v] => v
      | vs => .varr vs)
  | .chunk body =>
    match body with
    | [] => .error "TypeError: Cannot read properties of undefined (reading \x27type\x27)"
    | st :: _ => luaAstToJson st
  | .unknown t => .error ("can\x27t parse " ++ t)

/-- `fields.map(luaAstToJson)` with exception propagation (also the
evaluation the source's `filter`/`map` pair performs field by field). -/
def luaAstListToJson : List LuaAst → Except String (List Value)
  | [] => .ok []
  | t :: ts => do
    let v ← luaAstToJson t
    let vs ← luaAstListToJson ts
    .ok (v :: vs)

/-- The mapping branch's field walk (line 84-89): deserialize each
field in order, destructure its `key`/`value` properties — a `TypeError`
when the field produced `null` or `undefined` — coerce the key to a
string, and escape the value (the escaping step itself throws a
`TypeError` on an object with a truthy `replace` binding). -/
def luaAstFieldsToPairs : List LuaAst → Except String (List (String × Value))
  | [] => .ok []
  | f :: fs => do
    let r ← luaAstToJson f
    if r.isNullV || r.isUndefV then
      Except.error "TypeError: Cannot destructure property \x27key\x27 of \x27luaAstToJson(...)\x27 as it is null."
    else do
      let ev ← escape (lookupPairField r "value")
      let ps ← luaAstFieldsToPairs fs
      .ok ((jsToString (lookupPairField r "key"), ev) :: ps)

end

/-! ## The external Lua parser, modelled from the spec

src/index.js line 115 delegates `parse` to the external `luaparse`
library, which is not part of this repository.  The spec (sections 1, 4.2
and 6) describes it as the collaborator that turns Lua source text into a
tree with the node shapes of section 4.2; the definitions below model the
literal subset of Lua it accepts (nil, booleans, decimal numerals,
short strings, unary minus, table constructors, and a `return`
statement), which is the subset the Serializer emits. -/

/-- Whitespace characters skipped between tokens. -/
def isWsChar (c : Char) : Bool :=
  c == ' ' || c == '\n' || c == '\t' || c == '\r'

/-- Skip leading whitespace. -/
def skipWs : List Char → List Char
  | [] => []
  | c :: rest => if isWsChar c then skipWs rest else c :: rest

/-- Longest identifier-character prefix and the remainder. -/
def takeIdent : List Char → List Char × List Char
  | [] => ([], [])
  | c :: rest =>
    if isIdentCh c then
      let (a, b) := takeIdent rest
      (c :: a, b)
    else ([], c :: rest)

/-- Longest digit prefix and the remainder. -/
def takeDigits : List Char → List Char × List Char
  | [] => ([], [])
  | c :: rest =>
    if c.isDigit then
      let (a, b) := takeDigits rest
      (c :: a, b)
    else ([], c :: rest)

/-- Numeric value of a digit list, most significant first. -/
def digitsVal (ds : List Char) : Nat :=
  ds.foldl (fun a c => a * 10 + (c.toNat - 48)) 0

/-- The reserved words of Lua 5.1. -/
def luaKeywords : List String :=
  ["and", "break", "do", "else", "elseif", "end", "false", "for", "function",
   "if", "in", "local", "nil", "not", "or", "repeat", "return", "then",
   "true", "until", "while"]

/-- Modelled from the spec: the escape sequences of Lua short strings as
the external parser decodes them (`\\ddd` digit escapes beyond `\\0` are
left out; the serializer never emits them). -/
def decodeEscape (c : Char) : Option Char :=
  if c = 'n' then some '\n'
  else if c = 'r' then some '\r'
  else if c = 't' then some '\t'
  else if c = '\\' then some '\\'
  else if c = '\x27' then some '\x27'
  else if c = '"' then some '"'
  else if c = 'a' then some (Char.ofNat 7)
  else if c = 'b' then some (Char.ofNat 8)
  else if c = 'f' then some (Char.ofNat 12)
  else if c = 'v' then some (Char.ofNat 11)
  else if c = '0' then some (Char.ofNat 0)
  else none

mutual

/-- Modelled from the spec: the body of a Lua short string after its
opening quote `q`, decoding escapes, rejecting raw line breaks, and
stopping at the closing quote. -/
def parseStringLit (q : Char) : List Char → Except String (List Char × List Char)
  | [] => .error "unfinished string"
  | c :: rest =>
    if c = q then .ok ([], rest)
    else if c = '\n' ∨ c = '\r' then .error "unfinished string"
    else if c = '\\' then parseStringEsc q rest
    else do
      let (t, r) ← parseStringLit q rest
      .ok (c :: t, r)

/-- Modelled from the spec: the character after a backslash inside a
short string. -/
def parseStringEsc (q : Char) : List Char → Except String (List Char × List Char)
  | [] => .error "unfinished string"
  | e :: rest2 =>
    match decodeEscape e with
    | none => .error "invalid escape sequence"
    | some d => do
      let (t, r) ← parseStringLit q rest2
      .ok (d :: t, r)

end

mutual

/-- Modelled from the spec: a Lua expression of the literal subset.
`fuel` bounds expression nesting; any value at or above the input
length behaves like unbounded recursion, since at least one character
is consumed before each nested call. -/
def parseExpr : Nat → List Char → Except String (LuaAst × List Char)
  | 0, _ => .error "out of fuel"
  | fuel + 1, s =>
    match skipWs s with
    | [] => .error "unexpected end of input"
    | c :: rest =>
      if c = '-' then do
        let (a, r) ← parseExpr fuel rest
        .ok (.unaryExpression "-" a, r)
      else if c = '\x7b' then do
        let (fs, r) ← parseFields fuel rest
        .ok (.tableConstructorExpression fs, r)
      else if c = '\x27' ∨ c = '"' then do
        let (str, r) ← parseStringLit c rest
        .ok (.stringLiteral ⟨str⟩, r)
      else if c.isDigit then
        let (ds, r) := takeDigits (c :: rest)
        .ok (.numericLiteral (digitsVal ds : Int), r)
      else if isIdentStartCh c then
        let p := takeIdent (c :: rest)
        let n : String := ⟨p.1⟩
        if n = "nil" then .ok (.nilLiteral, p.2)
        else if n = "true" then .ok (.booleanLiteral true, p.2)
        else if n = "false" then .ok (.booleanLiteral false, p.2)
        else if luaKeywords.contains n then .error ("unexpected keyword " ++ n)
        else .ok (.identifier n, p.2)
      else .error "unexpected character"

/-- Modelled from the spec: the field list of a table constructor after
its opening brace, fields separated by `,` or `;`, allowing a trailing
separator, ending at the closing brace. -/
def parseFields : Nat → List Char → Except String (List LuaAst × List Char)
  | 0, _ => .error "out of fuel"
  | fuel + 1, s =>
    match skipWs s with
    | [] => .error "unterminated table constructor"
    | c :: rest =>
      if c = '\x7d' then .ok ([], rest)
      else do
        let (f, r) ← parseField fuel (c :: rest)
        match skipWs r with
        | ',' :: r3 => do
            let (fs, r4) ← parseFields fuel r3
            .ok (f :: fs, r4)
        | ';' :: r3 => do
            let (fs, r4) ← parseFields fuel r3
            .ok (f :: fs, r4)
        | '\x7d' :: r3 => .ok ([f], r3)
        | _ => .error "expected separator or closing brace"

/-- Modelled from the spec: one table field — `[expr] = expr`,
`Name = expr`, or a positional expression.  (Binary operators are
outside the modelled subset, so a `Name` followed by `==` is
rejected rather than parsed as a comparison.) -/
def parseField : Nat → List Char → Except String (LuaAst × List Char)
  | 0, _ => .error "out of fuel"
  | fuel + 1, s =>
    match skipWs s with
    | [] => .error "unexpected end of input in field"
    | c :: rest =>
      if c = '[' then do
        let (k, r) ← parseExpr fuel rest
        match skipWs r with
        | ']' :: r3 =>
          (match skipWs r3 with
           | '=' :: r4 => do
               let (v, r5) ← parseExpr fuel r4
               .ok (.tableKey k v, r5)
           | _ => .error "expected = after bracket key")
        | _ => .error "expected closing bracket"
      else if isIdentStartCh c then
        let p := takeIdent (c :: rest)
        let n : String := ⟨p.1⟩
        if luaKeywords.contains n then do
          let (e, r2) ← parseExpr fuel s
          .ok (.tableValue e, r2)
        else
          match skipWs p.2 with
          | '=' :: r2 =>
            (match r2 with
             | '=' :: _ => .error "binary operators are outside the modelled subset"
             | _ => do
               let (v, r3) ← parseExpr fuel r2
               .ok (.tableKeyString (.identifier n) v, r3))
          | _ => do
            let (e, r2) ← parseExpr fuel s
            .ok (.tableValue e, r2)
      else do
        let (e, r2) ← parseExpr fuel s
        .ok (.tableValue e, r2)

end

/-- Text that survives the single-quote rendering and the Lua lexer
unchanged: no backslash and no line break. -/
def textSafe (s : String) : Bool :=
  s.data.all (fun c => !(c == '\\' || c == '\n' || c == '\r'))

/-- Key lists without duplicates. -/
def nodupKeys : List String → Bool
  | [] => true
  | k :: ks => !(ks.contains k) && nodupKeys ks

mutual

/-- The amended round-trip domain: no PropertyEntry, no NaN, Text
leaves and Mapping keys Lua-safe, Mapping keys unique, not reserved
words and not the deserializer's internal marker, Mappings nonempty
without a `type` binding equal to `property` or a truthy `replace`
binding, and no Nil element inside a Sequence. -/
def goodValue : Value → Bool
  | .vnull => true
  | .vbool _ => true
  | .vnum (.int _) => true
  | .vnum .nan => false
  | .vstr s => textSafe s
  | .varr xs => goodList xs
  | .vobj fs =>
    !fs.isEmpty && nodupKeys (fs.map Prod.fst) &&
    !(isPropertyTag (lookupField fs "type")) &&
    !(lookupField fs "replace").truthy && goodFields fs
  | _ => false

/-- Good sequence elements: good and not Nil. -/
def goodList : List Value → Bool
  | [] => true
  | x :: xs => !x.isNullV && goodValue x && goodList xs

/-- Good mapping fields: safe non-keyword keys that are not the
deserializer's internal pair marker, and good values. -/
def goodFields : List (String × Value) → Bool
  | [] => true
  | (k, v) :: fs =>
    textSafe k && !(luaKeywords.contains k) &&
    !(k == "__internal_table_key") && goodValue v && goodFields fs

end

mutual

/-- The tree the modelled parser produces for the serialization of a
good value. -/
def toAst : Value → LuaAst
  | .vnull => .nilLiteral
  | .vbool b => .booleanLiteral b
  | .vnum (.int n) =>
    if n < 0 then .unaryExpression "-" (.numericLiteral (n.natAbs : Int))
    else .numericLiteral n
  | .vnum .nan => .nilLiteral
  | .vstr s => .stringLiteral s
  | .varr xs => .tableConstructorExpression (toAstList xs)
  | .vobj fs => .tableConstructorExpression (toAstFields fs)
  | _ => .nilLiteral

/-- Sequence elements become positional fields. -/
def toAstList : List Value → List LuaAst
  | [] => []
  | x :: xs => .tableValue (toAst x) :: toAstList xs

/-- Mapping fields become named or bracket-keyed fields. -/
def toAstFields : List (String × Value) → List LuaAst
  | [] => []
  | (k, v) :: fs =>
    (if identRegexMatch k then LuaAst.tableKeyString (.identifier k) (toAst v)
     else LuaAst.tableKey (.stringLiteral k) (toAst v)) :: toAstFields fs

end

mutual

/-- Fuel needed to parse the rendering of a value (generous). -/
def vSize : Value → Nat
  | .varr xs => vSizeList xs + 1
  | .vobj fs => vSizeFields fs + 1
  | _ => 2

/-- Fuel needed for a rendered element list. -/
def vSizeList : List Value → Nat
  | [] => 1
  | x :: xs => vSize x + 2 + vSizeList xs

/-- Fuel needed for a rendered field list. -/
def vSizeFields : List (String × Value) → Nat
  | [] => 1
  | (_, v) :: fs => vSize v + 3 + vSizeFields fs

end

/-- The claim's description of string rendering: wrap the string in the
quote character `q` and replace each occurrence of `q` inside it by a
backslash followed by `q`, transforming no other character. -/
def quoteEscapeSpec (q : Char) (s : String) : String :=
  ⟨[q] ++ (s.data.map (fun c => if c = q then ['\\', q] else [c])).flatten ++ [q]⟩

/-- The claim's key-shape predicate: a letter or underscore followed by
letters, digits, or underscores. -/
def identShapedSpec (s : String) : Bool :=
  match s.data with
  | [] => false
  | c :: cs => isIdentStartCh c && cs.all isIdentCh

/-- The amended claim's description of the sequence branch, applied to
the already-deserialized field values: skip the fields whose value is
Nil, then left to right wrap a value that carried the internal
key/value pair construct as a PropertyEntry (escaping its `value`
component) and apply string-escaping to every other value, stopping
with the escaping step's `TypeError` the first time it reaches an
object carrying a truthy `replace` binding. -/
def seqElemsSpec (vs : List Value) : Except String (List Value) :=
  (vs.filter (fun v => !v.isNullV)).foldr
    (fun v acc => do
      let e ←
        (if (lookupPairField v "__internal_table_key").truthy then do
          let ev ← escape (lookupPairField v "value")
          Except.ok (.vprop (lookupPairField v "key") ev)
        else escape v)
      let es ← acc
      Except.ok (e :: es))
    (.ok [])

/-- The escaping order as amended: each pair of adjacent backslashes
becomes four backslashes (a lone backslash is untouched), then each
backslash-r and backslash-n two-character sequence gains two leading
backslashes, then each actual newline becomes backslash-n. -/
def escapeStepsSpec (s : String) : String :=
  jsReplaceAllS "\n" "\\n"
    (jsReplaceAllS "\\n" "\\\\n"
      (jsReplaceAllS "\\r" "\\\\r"
        (jsReplaceAllS "\\\\" "\\\\\\\\" s)))

mutual

/-- The amended compact rendering (claim C6): one brace block per
container on a single line, elements and entries concatenated with a
trailing comma each and no inter-element whitespace, a `PropertyEntry`
and the internal pair rendering as plain tables of their fields. -/
def compactRender (sq : Bool) : Value → Except String String
  | .vnull => .ok "nil"
  | .vbool b => .ok (if b then "true" else "false")
  | .vnum n => .ok (numToString n)
  | .vstr s => .ok (formatLuaString s sq)
  | .varr xs =>
    if xs.isEmpty then .ok "\x7b\x7d"
    else do
      let es ← compactList sq xs
      .ok ("\x7b" ++ String.join (es.map (fun e => e ++ ",")) ++ "\x7d")
  | .vobj fs =>
    if fs.isEmpty then .ok "\x7b\x7d"
    else do
      let es ← compactFields sq fs
      .ok ("\x7b" ++ String.join (es.map (fun kv =>
        formatLuaKey kv.1 sq ++ "=" ++ kv.2 ++ ",")) ++ "\x7d")
  | .vprop k v => do
    let kt ← compactRender sq k
    let vt ← compactRender sq v
    .ok ("\x7btype=" ++ formatLuaString "property" sq ++ ",key=" ++ kt ++
      ",value=" ++ vt ++ ",\x7d")
  | .vpair k v => do
    let kt ← compactRender sq k
    let vt ← compactRender sq v
    .ok ("\x7b__internal_table_key=true,key=" ++ kt ++ ",value=" ++ vt ++ ",\x7d")
  | .vfun => .ok "\x7b\x7d"
  | .vundef => .error "can\x27t format undefined"

/-- Compact rendering of sequence elements. -/
def compactList (sq : Bool) : List Value → Except String (List String)
  | [] => .ok []
  | x :: xs => do
    let t ← compactRender sq x
    let ts ← compactList sq xs
    .ok (t :: ts)

/-- Compact rendering of mapping entries. -/
def compactFields (sq : Bool) : List (String × Value) → Except String (List (String × String))
  | [] => .ok []
  | (k, v) :: fs => do
    let t ← compactRender sq v
    let ts ← compactFields sq fs
    .ok ((k, t) :: ts)

end

/-- A character that is not horizontal or vertical whitespace. -/
def noWsChar (c : Char) : Bool :=
  !(c == ' ' || c == '\n' || c == '\t' || c == '\r')

/-- Whether the escaping step throws on this field of a keyed-first
table: the field deserialized successfully and the `value` component of
its pair carries a truthy `replace` binding. -/
def mapFieldEscFails (t : LuaAst) : Bool :=
  match luaAstToJson t with
  | .error _ => false
  | .ok v => escapeFails (lookupPairField v "value")

/-- Whether the escaping step throws on this field of an unkeyed-first
table: the field deserialized successfully to a non-Nil value (Nil is
filtered out first) that either wraps as an internal pair whose `value`
component, or is itself an object, carrying a truthy `replace`
binding. -/
def seqFieldEscFails (t : LuaAst) : Bool :=
  match luaAstToJson t with
  | .error _ => false
  | .ok v =>
    if v.isNullV then false
    else if (lookupPairField v "__internal_table_key").truthy then
      escapeFails (lookupPairField v "value")
    else escapeFails v

mutual

/-- The amended characterization of deserialization failure: evaluation
reaches an unrecognized type tag, a `UnaryExpression` whose operator is
not `-`, a `Chunk` with no statements, a table-constructor field whose
deserialized value feeds the escaping step with an object carrying a
truthy `replace` binding (the guarded `value.replace` call then
throws), or — inside a keyed-first table constructor — a field whose
value deserializes to Nil (the destructuring of the key/value pair then
throws).  Only the evaluated part of the tree counts: a `Chunk` looks
at its first statement only. -/
def deserializeFails : LuaAst → Bool
  | .nilLiteral => false
  | .booleanLiteral _ => false
  | .numericLiteral _ => false
  | .stringLiteral _ => false
  | .identifier _ => false
  | .unaryExpression op a => !(op == "-") || deserializeFails a
  | .tableKey k v => deserializeFails k || deserializeFails v
  | .tableKeyString k v => deserializeFails k || deserializeFails v
  | .tableValue v => deserializeFails v
  | .tableConstructorExpression fields =>
    if firstFieldKeyed fields then anyFailsOrNil fields else seqAnyFails fields
  | .localStatement init => anyFails init
  | .returnStatement args => anyFails args
  | .chunk [] => true
  | .chunk (st :: _) => deserializeFails st
  | .unknown _ => true

/-- Some member of the list fails to deserialize (statement argument
lists, where no escaping runs). -/
def anyFails : List LuaAst → Bool
  | [] => false
  | t :: ts => deserializeFails t || anyFails ts

/-- Some sequence field fails to deserialize, or its escaping step
throws. -/
def seqAnyFails : List LuaAst → Bool
  | [] => false
  | t :: ts => deserializeFails t || seqFieldEscFails t || seqAnyFails ts

/-- Some member fails, successfully deserializes to Nil (the
keyed-table destructuring error), or has its escaping step throw. -/
def anyFailsOrNil : List LuaAst → Bool
  | [] => false
  | t :: ts =>
    deserializeFails t || yieldsNil t || mapFieldEscFails t || anyFailsOrNil ts

/-- Whether a node's successful deserialization is the Nil value. -/
def yieldsNil : LuaAst → Bool
  | .nilLiteral => true
  | .tableValue v => yieldsNil v
  | .chunk (st :: _) => yieldsNil st
  | .localStatement [x] => yieldsNil x
  | .returnStatement [x] => yieldsNil x
  | _ => false

end

mutual

/-- The amended characterization of serialization failure under a given
indentation mode: rendering reaches `undefined`, or — with indentation
enabled — a plain Mapping carrying a `type` field equal to `property`
but no `value` field (the property branch then renders the missing
`value`, which throws). -/
def formatFails (indented : Bool) : Value → Bool
  | .vundef => true
  | .varr xs => listFormatFails indented xs
  | .vobj fs =>
    fieldsFormatFails indented fs
      || (indented && isPropertyTag (lookupField fs "type")
          && !(fs.any (fun p => p.1 == "value")))
  | .vprop k v => formatFails indented k || formatFails indented v
  | .vpair k v => formatFails indented k || formatFails indented v
  | _ => false

/-- Failure somewhere in a list of sequence elements. -/
def listFormatFails (indented : Bool) : List Value → Bool
  | [] => false
  | x :: xs => formatFails indented x || listFormatFails indented xs

/-- Failure somewhere among mapping field values. -/
def fieldsFormatFails (indented : Bool) : List (String × Value) → Bool
  | [] => false
  | (_, v) :: fs => formatFails indented v || fieldsFormatFails indented fs

end

mutual

/-- Whitespace-freedom of every piece of text the serializer copies
verbatim into its output: the characters of Text leaves, of Mapping
keys, and of textual PropertyEntry keys. -/
def valueWsFree : Value → Bool
  | .vstr s => s.data.all noWsChar
  | .varr xs => listWsFree xs
  | .vobj fs => fieldsWsFree fs
  | .vprop k v => valueWsFree k && valueWsFree v
  | .vpair k v => valueWsFree k && valueWsFree v
  | _ => true

/-- Whitespace-freedom of a list of values. -/
def listWsFree : List Value → Bool
  | [] => true
  | x :: xs => valueWsFree x && listWsFree xs

/-- Whitespace-freedom of mapping fields (keys and values). -/
def fieldsWsFree : List (String × Value) → Bool
  | [] => true
  | (k, v) :: fs =>
    k.data.all noWsChar && valueWsFree v && fieldsWsFree fs

end

/-! ## Induction principles and basic monadic lemmas -/

/-- Exception propagation through a bind. -/
@[simp] theorem exceptBind_error {α β : Type} (e : String) (f : α → Except String β) :
    ((Except.error e : Except String α) >>= f) = Except.error e := rfl

/-- Successful bind steps into the continuation. -/
@[simp] theorem exceptBind_ok {α β : Type} (a : α) (f : α → Except String β) :
    ((Except.ok a : Except String α) >>= f) = f a := rfl

/-- A thrown error is not a success. -/
@[simp] theorem exceptIsOk_error {α : Type} (e : String) :
    (Except.error e : Except String α).isOk = false := rfl

/-- A returned value is a success. -/
@[simp] theorem exceptIsOk_ok {α : Type} (a : α) :
    (Except.ok a : Except String α).isOk = true := rfl

/-- Structural induction over `Value`, with membership hypotheses for the
list-carrying constructors. -/
theorem valueInduction (P : Value → Prop)
    (hnull : P .vnull) (hbool : ∀ b, P (.vbool b)) (hnum : ∀ n, P (.vnum n))
    (hstr : ∀ s, P (.vstr s))
    (harr : ∀ xs, (∀ x ∈ xs, P x) → P (.varr xs))
    (hobj : ∀ fs, (∀ p ∈ fs, P p.2) → P (.vobj fs))
    (hprop : ∀ k v, P k → P v → P (.vprop k v))
    (hpair : ∀ k v, P k → P v → P (.vpair k v))
    (hundef : P .vundef) (hfun : P .vfun) : ∀ v, P v
  | .vnull => hnull
  | .vbool b => hbool b
  | .vnum n => hnum n
  | .vstr s => hstr s
  | .varr xs => harr xs (fun x hx =>
      valueInduction P hnull hbool hnum hstr harr hobj hprop hpair hundef hfun x)
  | .vobj fs => hobj fs (fun p hp =>
      valueInduction P hnull hbool hnum hstr harr hobj hprop hpair hundef hfun p.2)
  | .vprop k v =>
      hprop k v (valueInduction P hnull hbool hnum hstr harr hobj hprop hpair hundef hfun k)
        (valueInduction P hnull hbool hnum hstr harr hobj hprop hpair hundef hfun v)
  | .vpair k v =>
      hpair k v (valueInduction P hnull hbool hnum hstr harr hobj hprop hpair hundef hfun k)
        (valueInduction P hnull hbool hnum hstr harr hobj hprop hpair hundef hfun v)
  | .vundef => hundef
  | .vfun => hfun
  termination_by v => sizeOf v
  decreasing_by
    · exact Nat.lt_trans (List.sizeOf_lt_of_mem hx) (by simp)
    · have h1 := List.sizeOf_lt_of_mem hp
      have h2 : sizeOf p.2 < sizeOf p := by
        cases p
        simp only [Prod.mk.sizeOf_spec]
        omega
      have h3 := Nat.lt_trans h2 h1
      simp only [Value.vobj.sizeOf_spec]
      omega
    · simp only [Value.vprop.sizeOf_spec]; omega
    · simp only [Value.vprop.sizeOf_spec]; omega
    · simp only [Value.vpair.sizeOf_spec]; omega
    · simp only [Value.vpair.sizeOf_spec]; omega

/-- `⟨s.data⟩` is `s` itself. -/
theorem stringMk_data : ∀ s : String, (⟨s.data⟩ : String) = s
  | ⟨_⟩ => rfl

/-- With fuel at least the input length, replacing a single-character
pattern maps every occurrence of that character to the replacement and
keeps everything else. -/
theorem jsReplaceAllGo_single (q : Char) (rep : List Char) :
    ∀ (l : List Char) (fuel : Nat), l.length ≤ fuel →
      jsReplaceAllGo [q] rep fuel l =
        (l.map (fun c => if c = q then rep else [c])).flatten := by
  intro l
  induction l with
  | nil => intro fuel _; cases fuel <;> simp [jsReplaceAllGo]
  | cons c rest ih =>
    intro fuel hf
    cases fuel with
    | zero => simp at hf
    | succ f =>
      have hrest : rest.length ≤ f := by
        simpa using Nat.le_of_succ_le_succ (by simpa using hf)
      by_cases hc : c = q
      · subst hc
        simp only [jsReplaceAllGo, List.length_cons, List.take_succ_cons, List.take_zero,
          ne_eq, List.cons_ne_self]
        rw [if_pos ⟨by simp, by simp⟩]
        simp [ih f hrest]
      · simp only [jsReplaceAllGo]
        rw [if_neg (by
          intro h
          have := h.2
          simp only [List.length_cons, List.length_nil, List.take_succ_cons,
            List.take_zero] at this
          exact hc (by simpa using this))]
        simp [hc, ih f hrest]

/-- Replacing a pattern whose first character never occurs in the input
leaves the input unchanged. -/
theorem jsReplaceAllGo_not_mem (p : Char) (pt rep : List Char) :
    ∀ (l : List Char) (fuel : Nat), l.length ≤ fuel → p ∉ l →
      jsReplaceAllGo (p :: pt) rep fuel l = l := by
  intro l
  induction l with
  | nil => intro fuel _ _; cases fuel <;> simp [jsReplaceAllGo]
  | cons c rest ih =>
    intro fuel hf hmem
    cases fuel with
    | zero => simp at hf
    | succ f =>
      have hrest : rest.length ≤ f := by
        simpa using Nat.le_of_succ_le_succ (by simpa using hf)
      have hc : c ≠ p := fun h => hmem (by simp [h])
      simp only [jsReplaceAllGo]
      rw [if_neg (by
        intro h
        have := h.2
        simp only [List.length_cons, List.take_succ_cons] at this
        exact hc (List.head_eq_of_cons_eq this))]
      rw [ih f hrest (fun h => hmem (List.mem_cons_of_mem _ h))]

/-- String-level form of `jsReplaceAllGo_single`. -/
theorem jsReplaceAllS_single (q : Char) (rep s : String) :
    jsReplaceAllS ⟨[q]⟩ rep s =
      ⟨(s.data.map (fun c => if c = q then rep.data else [c])).flatten⟩ := by
  simp only [jsReplaceAllS, jsReplaceAll]
  rw [jsReplaceAllGo_single q rep.data s.data s.data.length (Nat.le_refl _)]

/-- String-level no-match replacement: when the first character of the
pattern never occurs in the input, the input is returned unchanged. -/
theorem jsReplaceAllS_head_not_mem (p : Char) (pt : List Char) (pat rep s : String)
    (hp : pat.data = p :: pt) (hmem : p ∉ s.data) :
    jsReplaceAllS pat rep s = s := by
  show (⟨jsReplaceAll pat.data rep.data s.data⟩ : String) = s
  rw [hp, jsReplaceAll,
    jsReplaceAllGo_not_mem p pt rep.data s.data s.data.length (Nat.le_refl _) hmem]

/-! ## C5: the deserializer's string-escaping step -/

/-- C5 (corrected): counterexample.  The claim's first step, "doubling
backslashes", would send the one-character string `\` to `\\`; the
code's first replace only matches two adjacent backslashes, so a lone
backslash passes through `escape` unchanged. -/
theorem c5_counterexample :
    escape (.vstr "\\") = .ok (.vstr "\\")
    ∧ escape (.vstr "\\") ≠ .ok (.vstr "\\\\") := by
  refine ⟨rfl, ?_⟩
  intro h
  rw [show escape (.vstr "\\") = .ok (Value.vstr "\\") from rfl] at h
  injection h with h2
  injection h2 with h3
  exact absurd h3 (by decide)

/-- C5 (corrected): amended claim.  The escaping step applied to a Text
value transforms it by, in order: replacing each pair of adjacent
backslashes with four backslashes (a lone backslash is left unchanged),
then prefixing each backslash-r two-character sequence with two
backslashes, then likewise each backslash-n, then converting each
actual newline character to the two-character sequence backslash-n; a
non-string value passes through unchanged unless its `replace` access
is truthy — an object carrying a truthy `replace` binding — in which
case the guarded call throws a `TypeError`.  On a backslash-free string
the first three steps are the identity, and the concrete equations pin
each step. -/
theorem c5_amended :
    (∀ s, escape (.vstr s) = .ok (.vstr (escapeStepsSpec s)))
    ∧ (∀ v, v.isStringV = false → escapeFails v = false → escape v = .ok v)
    ∧ (∀ v, escapeFails v = true →
        escape v = .error "TypeError: value.replace is not a function")
    ∧ (∀ fs, (lookupField fs "replace").truthy = true →
        escape (.vobj fs) = .error "TypeError: value.replace is not a function")
    ∧ (∀ s : String, '\\' ∉ s.data → escapeString s = jsReplaceAllS "\n" "\\n" s)
    ∧ escapeString "\\" = "\\"
    ∧ escapeString "\\\\" = "\\\\\\\\"
    ∧ escapeString "\\r" = "\\\\r"
    ∧ escapeString "\\n" = "\\\\n"
    ∧ escapeString "\n" = "\\n" := by
  refine ⟨fun s => rfl, ?_, ?_, ?_, ?_, rfl, rfl, rfl, rfl, rfl⟩
  · intro v h hf
    cases v with
    | vstr s => simp [Value.isStringV] at h
    | vobj fs =>
      show (if (lookupField fs "replace").truthy then _ else _) = _
      rw [if_neg (by
        rw [show escapeFails (Value.vobj fs) =
          (lookupField fs "replace").truthy from rfl] at hf
        rw [hf]
        exact Bool.noConfusion)]
    | vnull => rfl
    | vbool b => rfl
    | vnum n => rfl
    | varr xs => rfl
    | vprop k v => rfl
    | vpair k v => rfl
    | vundef => rfl
    | vfun => rfl
  · intro v hf
    cases v with
    | vobj fs =>
      show (if (lookupField fs "replace").truthy then _ else _) = _
      rw [if_pos (by
        rw [show escapeFails (Value.vobj fs) =
          (lookupField fs "replace").truthy from rfl] at hf
        exact hf)]
    | vnull => exact Bool.noConfusion hf
    | vbool b => exact Bool.noConfusion hf
    | vnum n => exact Bool.noConfusion hf
    | vstr s => exact Bool.noConfusion hf
    | varr xs => exact Bool.noConfusion hf
    | vprop k v => exact Bool.noConfusion hf
    | vpair k v => exact Bool.noConfusion hf
    | vundef => exact Bool.noConfusion hf
    | vfun => exact Bool.noConfusion hf
  · intro fs h
    show (if (lookupField fs "replace").truthy then _ else _) = _
    rw [if_pos h]
  · intro s hmem
    show jsReplaceAllS "\n" "\\n"
      (jsReplaceAllS "\\n" "\\\\n"
        (jsReplaceAllS "\\r" "\\\\r"
          (jsReplaceAllS "\\\\" "\\\\\\\\" s))) = _
    rw [jsReplaceAllS_head_not_mem '\\' ['\\'] "\\\\" "\\\\\\\\" s rfl hmem,
      jsReplaceAllS_head_not_mem '\\' ['r'] "\\r" "\\\\r" s rfl hmem,
      jsReplaceAllS_head_not_mem '\\' ['n'] "\\n" "\\\\n" s rfl hmem]

/-- C5 witness: the amended theorem applied at `true` (a non-string
without a `replace` binding), at the one-binding object
`\x7breplace = 1\x7d` (a truthy `replace` binding), and at the
backslash-free string `ab`. -/
theorem c5_amended_witness :
    escape (.vbool true) = .ok (.vbool true)
    ∧ escape (.vobj [("replace", .vnum (.int 1))])
        = .error "TypeError: value.replace is not a function"
    ∧ escapeString "ab" = jsReplaceAllS "\n" "\\n" "ab" :=
  ⟨c5_amended.2.1 (.vbool true) rfl rfl,
   c5_amended.2.2.1 (.vobj [("replace", .vnum (.int 1))]) (by decide),
   c5_amended.2.2.2.2.1 "ab" (by decide)⟩

/-! ## C7: Text serialization quotes and escapes only the configured
quote character -/

/-- Data of a single-character global replacement on a string. -/
theorem jsReplaceAllS_single_data (q : Char) (pat rep s : String)
    (hp : pat.data = [q]) :
    (jsReplaceAllS pat rep s).data =
      (s.data.map (fun c => if c = q then rep.data else [c])).flatten := by
  show jsReplaceAll pat.data rep.data s.data = _
  rw [hp, jsReplaceAll, jsReplaceAllGo_single q rep.data s.data s.data.length (Nat.le_refl _)]

/-- C7 (confirmed).  For every Text value, `formatLuaString` quotes it
with the quote character selected by `singleQuote` and escapes exactly
that quote character inside it: single-quote mode escapes `\x27` and
leaves `"` untouched, double-quote mode escapes `"` and leaves `\x27`
untouched, and no other character of the string is transformed. -/
theorem c7_text_quote_escape (s : String) (sq : Bool) :
    formatLuaString s sq = quoteEscapeSpec (if sq then '\x27' else '"') s := by
  cases sq with
  | true =>
    apply String.ext
    show ("\x27" ++ jsReplaceAllS "\x27" "\\\x27" s ++ "\x27").data = _
    simp only [String.data_append]
    rw [jsReplaceAllS_single_data '\x27' "\x27" "\\\x27" s rfl]
    rfl
  | false =>
    apply String.ext
    show ("\"" ++ jsReplaceAllS "\"" "\\\"" s ++ "\"").data = _
    simp only [String.data_append]
    rw [jsReplaceAllS_single_data '"' "\"" "\\\"" s rfl]
    rfl

/-! ## C8: Mapping keys render bare exactly when identifier-shaped -/

/-- From the accepting state, the key-regex scan stays accepting exactly
while the remaining characters are identifier characters. -/
theorem identScan_from_one (cs : List Char) :
    cs.foldl
      (fun st c =>
        match st with
        | 0 => if isIdentStartCh c then 1 else 2
        | 1 => if isIdentCh c then 1 else 2
        | _ => 2)
      (1 : Nat) = (if cs.all isIdentCh then 1 else 2) := by
  induction cs with
  | nil => simp
  | cons c cs ih =>
    by_cases hc : isIdentCh c
    · simp [hc, ih]
    · have h2 : ∀ l : List Char, l.foldl
          (fun st c =>
            match st with
            | 0 => if isIdentStartCh c then 1 else 2
            | 1 => if isIdentCh c then 1 else 2
            | _ => 2)
          (2 : Nat) = 2 := by
        intro l
        induction l with
        | nil => rfl
        | cons d ds ih2 => simpa using ih2
      simp [hc, h2]

/-- The anchored regex scan agrees with the claim's head/tail shape
predicate. -/
theorem identRegexMatch_eq_spec (s : String) :
    identRegexMatch s = identShapedSpec s := by
  rw [identRegexMatch, identShapedSpec]
  cases hd : s.data with
  | nil => rfl
  | cons c cs =>
    by_cases hc : isIdentStartCh c
    · simp only [List.foldl_cons, hc, if_true]
      rw [identScan_from_one]
      by_cases hall : cs.all isIdentCh <;> simp [hall, hc]
    · have h2 : ∀ l : List Char, l.foldl
          (fun st c =>
            match st with
            | 0 => if isIdentStartCh c then 1 else 2
            | 1 => if isIdentCh c then 1 else 2
            | _ => 2)
          (2 : Nat) = 2 := by
        intro l
        induction l with
        | nil => rfl
        | cons d ds ih2 => simpa using ih2
      simp [hc, h2]

/-- C8 (confirmed).  A Mapping key renders bare exactly when it matches
`^[A-Za-z_][A-Za-z0-9_]*$` (a letter or underscore followed by letters,
digits, or underscores); any other key renders as a bracketed quoted
string using the configured quote character. -/
theorem c8_key_rendering (s : String) (sq : Bool) :
    identRegexMatch s = identShapedSpec s
    ∧ formatLuaKey s sq =
        (if identShapedSpec s then s
         else "[" ++ quoteEscapeSpec (if sq then '\x27' else '"') s ++ "]") := by
  refine ⟨identRegexMatch_eq_spec s, ?_⟩
  rw [formatLuaKey, identRegexMatch_eq_spec s, c7_text_quote_escape s sq]

/-! ## C10: format normalizes the caller's options object in place -/

/-- C10 (confirmed).  A `format` call overwrites the three fields of the
supplied options object with their normalized values before rendering
(the returned object is the normalization of the input object, whose
`eol` is always a string afterwards, `singleQuote` always a boolean, and
`spaces` always `null`, a number or a string), while the input value —
immutable in this model — is untouched.  Valid supplied fields survive
normalization unchanged, invalid or missing ones are replaced by the
defaults, as the two concrete normalizations illustrate. -/
theorem c10_options_mutation (value : Value) (options : FormatOptions) :
    (format value options).1 = normalizeOptions options
    ∧ (normalizeOptions options).eol.isStringV = true
    ∧ (normalizeOptions options).singleQuote.isBooleanV = true
    ∧ ((normalizeOptions options).spaces.isNullV
        || (normalizeOptions options).spaces.isNumberV
        || (normalizeOptions options).spaces.isStringV) = true
    ∧ normalizeOptions ⟨.vstr "X", .vundef, .vnum (.int 0)⟩
        = ⟨.vstr "X", .vbool true, .vnum (.int 0)⟩
    ∧ normalizeOptions ⟨.vnum (.int 3), .vbool false, .vbool false⟩
        = ⟨.vstr "\n", .vbool false, .vnum (.int 2)⟩ := by
  refine ⟨rfl, ?_, ?_, ?_, rfl, rfl⟩
  · show (if options.eol.isStringV then options.eol else .vstr "\n").isStringV = true
    by_cases h : options.eol.isStringV = true
    · rw [if_pos h]; exact h
    · rw [if_neg h]; rfl
  · show (if options.singleQuote.isBooleanV then options.singleQuote
      else .vbool true).isBooleanV = true
    by_cases h : options.singleQuote.isBooleanV = true
    · rw [if_pos h]; exact h
    · rw [if_neg h]; rfl
  · show ((if options.spaces.isNullV || options.spaces.isNumberV || options.spaces.isStringV
          then options.spaces else .vnum (.int 2)).isNullV
        || (if options.spaces.isNullV || options.spaces.isNumberV || options.spaces.isStringV
          then options.spaces else .vnum (.int 2)).isNumberV
        || (if options.spaces.isNullV || options.spaces.isNumberV || options.spaces.isStringV
          then options.spaces else .vnum (.int 2)).isStringV) = true
    by_cases h : (options.spaces.isNullV || options.spaces.isNumberV
        || options.spaces.isStringV) = true
    · rw [if_pos h]
      exact h
    · rw [if_neg h]
      rfl

/-! ## C6: falsy spaces and compact output -/

/-- Under a falsy `spaces` option the renderer takes its compact
branches, which coincide with the claim-side single-line renderer. -/
theorem recV_compact (o : FormatOptions) (hsp : Value.truthy o.spaces = false) :
    ∀ v i, recV o v i = compactRender (Value.truthy o.singleQuote) v := by
  refine valueInduction
    (fun v => ∀ i, recV o v i = compactRender (Value.truthy o.singleQuote) v)
    ?_ ?_ ?_ ?_ ?_ ?_ ?_ ?_ ?_ ?_
  · intro i; rfl
  · intro b i; rfl
  · intro n i; rfl
  · intro s i; rfl
  · intro xs ih i
    have hlist : ∀ j, recArr o xs j = compactList (Value.truthy o.singleQuote) xs := by
      induction xs with
      | nil => intro j; rfl
      | cons a as iha =>
        intro j
        have h2 := iha (fun x hx j2 => ih x (List.mem_cons_of_mem a hx) j2)
        simp only [recArr, compactList, ih a (List.mem_cons_self a as) j, h2 j]
    simp only [recV, compactRender, hsp, Bool.false_eq_true, if_false, hlist (i + 1)]
  · intro fs ih i
    have hlist : ∀ j, recObj o fs j = compactFields (Value.truthy o.singleQuote) fs := by
      induction fs with
      | nil => intro j; rfl
      | cons p ps iha =>
        intro j
        have h2 := iha (fun x hx j2 => ih x (List.mem_cons_of_mem p hx) j2)
        obtain ⟨k, v⟩ := p
        simp only [recObj, compactFields,
          ih ⟨k, v⟩ (List.mem_cons_self _ ps) (j + 1), h2 j]
    simp only [recV, compactRender, hsp, Bool.false_eq_true, if_false, hlist i]
  · intro k v ihk ihv i
    simp only [recV, compactRender, hsp, Bool.false_eq_true, if_false,
      ihk (i + 1), ihv (i + 1)]
  · intro k v ihk ihv i
    simp only [recV, compactRender, hsp, Bool.false_eq_true, if_false,
      ihk (i + 1), ihv (i + 1)]
  · intro i; rfl
  · intro i; rfl

/-- Every digit emitted by the decimal expansion is a digit character
and not whitespace. -/
theorem natToCharsGo_all (fuel : Nat) :
    ∀ n, (natToCharsGo fuel n).all (fun c => c.isDigit && noWsChar c) = true := by
  induction fuel with
  | zero => intro n; rfl
  | succ f ih =>
    intro n
    simp only [natToCharsGo]
    by_cases h : n < 10
    · rw [if_pos h]
      interval_cases n <;> decide
    · rw [if_neg h, List.all_append, ih (n / 10)]
      have hm : n % 10 < 10 := Nat.mod_lt _ (by decide)
      generalize n % 10 = m at hm ⊢
      simp only [Bool.true_and]
      interval_cases m <;> decide

/-- Weakening a pointwise boolean property over a list. -/
theorem all_weaken {α} {p q : α → Bool} (h : ∀ a, p a = true → q a = true) :
    ∀ l : List α, l.all p = true → l.all q = true := by
  intro l hl
  rw [List.all_eq_true] at hl ⊢
  exact fun a ha => h a (hl a ha)

/-- The rendering of a number contains no whitespace. -/
theorem numToString_noWs (n : JsNumber) :
    (numToString n).data.all noWsChar = true := by
  cases n with
  | nan => decide
  | int m =>
    show (intToString m).data.all noWsChar = true
    have hdig : ∀ k : Nat, (natToChars k).all noWsChar = true := fun k =>
      all_weaken (fun c hc => (Bool.and_eq_true .. ▸ hc).2) _ (natToCharsGo_all (k + 1) k)
    rw [intToString]
    by_cases h : m < 0
    · rw [if_pos h]
      show ('-' :: natToChars m.natAbs).all noWsChar = true
      simp only [List.all_cons, hdig m.natAbs, Bool.and_true]
      decide
    · rw [if_neg h]
      exact hdig m.natAbs

/-- Quoting a whitespace-free string yields whitespace-free text. -/
theorem formatLuaString_noWs (s : String) (sq : Bool)
    (h : s.data.all noWsChar = true) :
    (formatLuaString s sq).data.all noWsChar = true := by
  rw [c7_text_quote_escape]
  cases sq <;>
  · show ((_ : List Char) ++ _ ++ _).all noWsChar = true
    simp only [List.all_append, List.all_flatten, Bool.and_eq_true, List.all_eq_true]
    refine ⟨⟨by decide, ?_⟩, by decide⟩
    intro l hl
    rw [List.mem_map] at hl
    obtain ⟨c, hc, rfl⟩ := hl
    have hcw := (List.all_eq_true.mp h) c hc
    by_cases hq : c = (if true then '\x27' else '"') <;>
      by_cases hq2 : c = (if false then '\x27' else '"') <;>
      simp_all [noWsChar] <;> decide

/-- Rendering a whitespace-free key yields whitespace-free text. -/
theorem formatLuaKey_noWs (s : String) (sq : Bool)
    (h : s.data.all noWsChar = true) :
    (formatLuaKey s sq).data.all noWsChar = true := by
  rw [formatLuaKey]
  by_cases hm : identRegexMatch s = true
  · rw [if_pos hm]; exact h
  · rw [if_neg hm]
    show (("[" : String).data ++ (formatLuaString s sq).data ++ ("]" : String).data).all
      noWsChar = true
    simp only [List.all_append, Bool.and_eq_true]
    exact ⟨⟨by decide, formatLuaString_noWs s sq h⟩, by decide⟩

/-- Folding string concatenation distributes over the data lists. -/
theorem foldl_append_data (l : List String) :
    ∀ a : String, (l.foldl (· ++ ·) a).data = a.data ++ (l.map String.data).flatten := by
  induction l with
  | nil => intro a; simp
  | cons s rest ih =>
    intro a
    show (rest.foldl (· ++ ·) (a ++ s)).data = _
    rw [ih (a ++ s)]
    simp [String.data_append, List.append_assoc]

/-- Data of `String.join`. -/
theorem join_data (l : List String) :
    (String.join l).data = (l.map String.data).flatten := by
  show (l.foldl (· ++ ·) "").data = _
  rw [foldl_append_data]
  rfl

/-- Compact rendering of a value whose texts are whitespace-free
produces whitespace-free output. -/
theorem compactRender_noWs (sq : Bool) :
    ∀ v, valueWsFree v = true → ∀ t, compactRender sq v = .ok t →
      t.data.all noWsChar = true := by
  refine valueInduction
    (fun v => valueWsFree v = true → ∀ t, compactRender sq v = .ok t →
      t.data.all noWsChar = true) ?_ ?_ ?_ ?_ ?_ ?_ ?_ ?_ ?_ ?_
  · intro _ t ht
    injection ht with h2
    subst h2
    decide
  · intro b _ t ht
    injection ht with h2
    subst h2
    cases b <;> decide
  · intro n _ t ht
    injection ht with h2
    subst h2
    exact numToString_noWs n
  · intro s hws t ht
    injection ht with h2
    subst h2
    exact formatLuaString_noWs s sq hws
  · intro xs ih hws t ht
    by_cases he : xs.isEmpty = true
    · rw [compactRender, if_pos he] at ht
      injection ht with h2
      subst h2
      decide
    · rw [compactRender, if_neg he] at ht
      have hlist : ∀ (ys : List Value), listWsFree ys = true →
          (∀ x ∈ ys, valueWsFree x = true → ∀ u, compactRender sq x = .ok u →
            u.data.all noWsChar = true) →
          ∀ es, compactList sq ys = .ok es → ∀ e ∈ es, e.data.all noWsChar = true := by
        intro ys
        induction ys with
        | nil =>
          intro _ _ es hes
          injection hes with h2
          subst h2
          intro e he2
          simp at he2
        | cons a as iha =>
          intro hw hels es hes
          rw [compactList] at hes
          cases hca : compactRender sq a with
          | error e => rw [hca] at hes; simp at hes
          | ok u =>
            rw [hca] at hes
            cases hcas : compactList sq as with
            | error e => rw [hcas] at hes; simp at hes
            | ok us =>
              rw [hcas] at hes
              have hes2 : Except.ok (ε := String) (u :: us) = .ok es := hes
              injection hes2 with h2
              subst h2
              have hwa : valueWsFree a = true ∧ listWsFree as = true := by
                have := hw
                rw [listWsFree, Bool.and_eq_true] at this
                exact this
              intro e he2
              rcases List.mem_cons.mp he2 with rfl | hmem
              · exact hels a (List.mem_cons_self a as) hwa.1 e hca
              · exact iha hwa.2 (fun x hx => hels x (List.mem_cons_of_mem a hx)) us hcas e hmem
      cases hcl : compactList sq xs with
      | error e => rw [hcl] at ht; simp at ht
      | ok es =>
        rw [hcl] at ht
        have ht2 : Except.ok (ε := String)
            ("\x7b" ++ String.join (es.map (fun e => e ++ ",")) ++ "\x7d") = .ok t := ht
        injection ht2 with h2
        subst h2
        have hmem := hlist xs (by simpa [valueWsFree] using hws) ih es hcl
        simp only [String.data_append, List.all_append, Bool.and_eq_true]
        refine ⟨⟨by decide, ?_⟩, by decide⟩
        rw [join_data, List.all_flatten, List.all_eq_true]
        intro l hl
        rw [List.mem_map] at hl
        obtain ⟨u, hu, rfl⟩ := hl
        rw [List.mem_map] at hu
        obtain ⟨e, he2, rfl⟩ := hu
        show ((e ++ ",").data.all noWsChar) = true
        rw [String.data_append, List.all_append, hmem e he2]
        decide
  · intro fs ih hws t ht
    by_cases he : fs.isEmpty = true
    · rw [compactRender, if_pos he] at ht
      injection ht with h2
      subst h2
      decide
    · rw [compactRender, if_neg he] at ht
      have hlist : ∀ (ys : List (String × Value)), fieldsWsFree ys = true →
          (∀ p ∈ ys, valueWsFree p.2 = true → ∀ u, compactRender sq p.2 = .ok u →
            u.data.all noWsChar = true) →
          ∀ es, compactFields sq ys = .ok es →
            ∀ kv ∈ es, kv.1.data.all noWsChar = true ∧ kv.2.data.all noWsChar = true := by
        intro ys
        induction ys with
        | nil =>
          intro _ _ es hes
          injection hes with h2
          subst h2
          intro kv hkv
          simp at hkv
        | cons p ps iha =>
          intro hw hels es hes
          obtain ⟨k, v⟩ := p
          rw [compactFields] at hes
          cases hca : compactRender sq v with
          | error e => rw [hca] at hes; simp at hes
          | ok u =>
            rw [hca] at hes
            cases hcas : compactFields sq ps with
            | error e => rw [hcas] at hes; simp at hes
            | ok us =>
              rw [hcas] at hes
              have hes2 : Except.ok (ε := String) ((k, u) :: us) = .ok es := hes
              injection hes2 with h2
              subst h2
              have hwa : k.data.all noWsChar = true ∧ valueWsFree v = true
                  ∧ fieldsWsFree ps = true := by
                have := hw
                rw [fieldsWsFree, Bool.and_eq_true, Bool.and_eq_true] at this
                exact ⟨this.1.1, this.1.2, this.2⟩
              intro kv hkv
              rcases List.mem_cons.mp hkv with rfl | hmem
              · exact ⟨hwa.1, hels ⟨k, v⟩ (List.mem_cons_self _ ps) hwa.2.1 u hca⟩
              · exact iha hwa.2.2 (fun x hx => hels x (List.mem_cons_of_mem _ hx)) us hcas kv hmem
      cases hcl : compactFields sq fs with
      | error e => rw [hcl] at ht; simp at ht
      | ok es =>
        rw [hcl] at ht
        have ht2 : Except.ok (ε := String)
            ("\x7b" ++ String.join (es.map (fun kv =>
              formatLuaKey kv.1 sq ++ "=" ++ kv.2 ++ ",")) ++ "\x7d") = .ok t := ht
        injection ht2 with h2
        subst h2
        have hmem := hlist fs (by simpa [valueWsFree] using hws) ih es hcl
        simp only [String.data_append, List.all_append, Bool.and_eq_true]
        refine ⟨⟨by decide, ?_⟩, by decide⟩
        rw [join_data, List.all_flatten, List.all_eq_true]
        intro l hl
        rw [List.mem_map] at hl
        obtain ⟨u, hu, rfl⟩ := hl
        rw [List.mem_map] at hu
        obtain ⟨kv, hkv, rfl⟩ := hu
        show ((formatLuaKey kv.1 sq ++ "=" ++ kv.2 ++ ",").data.all noWsChar) = true
        have h3 := hmem kv hkv
        simp only [String.data_append, List.all_append, Bool.and_eq_true]
        repeat' apply And.intro
        all_goals first
          | exact formatLuaKey_noWs kv.1 sq h3.1
          | exact h3.2
          | decide
  · intro k v ihk ihv hws t ht
    rw [compactRender] at ht
    cases hck : compactRender sq k with
    | error e => rw [hck] at ht; simp at ht
    | ok kt =>
      rw [hck] at ht
      cases hcv : compactRender sq v with
      | error e => rw [hcv] at ht; simp at ht
      | ok vt =>
        rw [hcv] at ht
        have hw2 : valueWsFree k = true ∧ valueWsFree v = true := by
          have := hws
          rw [valueWsFree, Bool.and_eq_true] at this
          exact this
        have ht2 : Except.ok (ε := String)
            ("\x7btype=" ++ formatLuaString "property" sq ++ ",key=" ++ kt ++
              ",value=" ++ vt ++ ",\x7d") = .ok t := ht
        injection ht2 with h2
        subst h2
        simp only [String.data_append, List.all_append, Bool.and_eq_true]
        repeat' apply And.intro
        all_goals first
          | exact ihk hw2.1 kt hck
          | exact ihv hw2.2 vt hcv
          | exact formatLuaString_noWs "property" sq (by decide)
          | decide
  · intro k v ihk ihv hws t ht
    rw [compactRender] at ht
    cases hck : compactRender sq k with
    | error e => rw [hck] at ht; simp at ht
    | ok kt =>
      rw [hck] at ht
      cases hcv : compactRender sq v with
      | error e => rw [hcv] at ht; simp at ht
      | ok vt =>
        rw [hcv] at ht
        have hw2 : valueWsFree k = true ∧ valueWsFree v = true := by
          have := hws
          rw [valueWsFree, Bool.and_eq_true] at this
          exact this
        have ht2 : Except.ok (ε := String)
            ("\x7b__internal_table_key=true,key=" ++ kt ++ ",value=" ++ vt ++ ",\x7d")
            = .ok t := ht
        injection ht2 with h2
        subst h2
        simp only [String.data_append, List.all_append, Bool.and_eq_true]
        repeat' apply And.intro
        all_goals first
          | exact ihk hw2.1 kt hck
          | exact ihv hw2.2 vt hcv
          | decide
  · intro _ t ht
    exact Except.noConfusion ht
  · intro _ t ht
    injection ht with h2
    subst h2
    decide

/-- C6 (corrected): counterexample.  The claim includes `false` among
the falsy `spaces` options that produce compact output, but the
normalization on line 12 recognizes only `null`, numbers and strings,
so `spaces: false` is replaced by the default `2` and the output is
indented: it contains a newline, a space after `return`, and is not the
compact text. -/
theorem c6_counterexample :
    (format (.varr [.vnum (.int 1)]) { spaces := .vbool false }).2
      = .ok "return \x7b\n  1,\n\x7d"
    ∧ '\n' ∈ ("return \x7b\n  1,\n\x7d" : String).data
    ∧ (format (.varr [.vnum (.int 1)]) { spaces := .vbool false }).2
      ≠ .ok "return\x7b1,\x7d" :=
  ⟨rfl, by decide, by
    intro h
    have h2 : ("return \x7b\n  1,\n\x7d" : String) = "return\x7b1,\x7d" := by injection h
    exact absurd h2 (by decide)⟩

/-- C6 (corrected): amended claim.  For a `spaces` option that is still
falsy after normalization — `null`, `0`, `NaN`, or the empty string,
but not `false` or a missing field, which normalize to the default `2`
— `format` produces compact output: `return` is followed by no space,
and the rendering is the claim-side single-line renderer, whose output
contains no whitespace at all whenever the value's own texts contain
none.  The closed conjunct is the spec's own compact example. -/
theorem c6_amended :
    (∀ (value : Value) (options : FormatOptions),
      Value.truthy (normalizeOptions options).spaces = false →
      (format value options).2 =
        (compactRender (Value.truthy (normalizeOptions options).singleQuote) value).map
          (fun t => "return" ++ t)
      ∧ ∀ t, (format value options).2 = .ok t → valueWsFree value = true →
          t.data.all noWsChar = true)
    ∧ (format (.varr [.vnum (.int 1), .vnum (.int 2)]) { spaces := .vnum (.int 0) }).2
        = .ok "return\x7b1,2,\x7d" := by
  refine ⟨?_, rfl⟩
  intro v o h
  have hmain : (format v o).2 =
      (compactRender (Value.truthy (normalizeOptions o).singleQuote) v).map
        (fun t => "return" ++ t) := by
    show (recV (normalizeOptions o) v 0).map _ = _
    rw [recV_compact (normalizeOptions o) h v 0, h]
    rfl
  refine ⟨hmain, ?_⟩
  intro t ht hws
  rw [hmain] at ht
  cases hcr : compactRender (Value.truthy (normalizeOptions o).singleQuote) v with
  | error e => rw [hcr] at ht; exact absurd ht (by simp [Except.map])
  | ok u =>
    rw [hcr] at ht
    have ht2 : Except.ok (ε := String) ("return" ++ u) = .ok t := ht
    injection ht2 with h2
    subst h2
    rw [String.data_append, List.all_append]
    rw [compactRender_noWs _ v hws u hcr]
    decide

/-- C6 witness: the amended theorem applied at the value `1` with the
supplied option `spaces: null` (falsy after normalization). -/
theorem c6_amended_witness :
    (format (.vnum (.int 1)) { spaces := .vnull }).2 =
      (compactRender
        (Value.truthy (normalizeOptions { spaces := .vnull }).singleQuote)
        (.vnum (.int 1))).map (fun t => "return" ++ t)
    ∧ ("return1" : String).data.all noWsChar = true :=
  ⟨(c6_amended.1 (.vnum (.int 1)) { spaces := .vnull } (by decide)).1,
    (c6_amended.1 (.vnum (.int 1)) { spaces := .vnull } (by decide)).2 "return1" rfl rfl⟩

/-! ## C3: PropertyEntry rendering -/

/-- C3 (corrected): counterexample.  The claim says the bracket-key
rendering holds for every `FormatOptions`, including compact mode; but
the `value.type === \x27property\x27` check only exists in the indented
branch, so under falsy `spaces` a PropertyEntry is rendered as a plain
brace-wrapped table of its `type`/`key`/`value` fields, not as a
bracket-key assignment. -/
theorem c3_counterexample :
    (format (.vprop (.vnum (.int 5)) (.vstr "v")) { spaces := .vnum (.int 0) }).2
      = .ok "return\x7btype=\x27property\x27,key=5,value=\x27v\x27,\x7d"
    ∧ (format (.vprop (.vnum (.int 5)) (.vstr "v")) { spaces := .vnum (.int 0) }).2
      ≠ .ok ("return" ++ "[5] = \x27v\x27") :=
  ⟨rfl, by
    intro h
    have h2 : ("return\x7btype=\x27property\x27,key=5,value=\x27v\x27,\x7d" : String)
        = "return" ++ "[5] = \x27v\x27" := by injection h
    exact absurd h2 (by decide)⟩

/-- C3 (corrected): amended claim.  Whenever indentation is enabled
(truthy normalized `spaces`), `format` renders a PropertyEntry as the
bracket-key assignment `[<key>] = <value>` — the key as a
single-quoted string when textual, or its bare coerced text when
numeric — with no braces of its own around the fragment; under falsy
`spaces` the entry instead renders as a plain table of its
`type`/`key`/`value` fields (see the counterexample). -/
theorem c3_amended :
    (∀ (o : FormatOptions) (k v : Value) (i : Nat) (kt vt : String),
        Value.truthy (normalizeOptions o).spaces = true →
        recV (normalizeOptions o) k (i + 1) = .ok kt →
        recV (normalizeOptions o) v (i + 1) = .ok vt →
        recV (normalizeOptions o) (.vprop k v) i
          = .ok ("[" ++ propKeyText k ++ "] = " ++ vt))
    ∧ propKeyText (.vstr "a") = "\x27a\x27"
    ∧ propKeyText (.vnum (.int 5)) = "5"
    ∧ (format (.vprop (.vnum (.int 5)) (.vstr "v")) defaultFormatOptions).2
        = .ok "return [5] = \x27v\x27" := by
  refine ⟨?_, rfl, rfl, rfl⟩
  intro o k v i kt vt hsp hk hv
  simp only [recV, hsp, if_true, hk, exceptBind_ok, hv]

/-- C3 witness: the amended rendering rule applied at key `5`, value
`"v"`, with the default options. -/
theorem c3_amended_witness :
    recV (normalizeOptions defaultFormatOptions) (.vprop (.vnum (.int 5)) (.vstr "v")) 0
      = .ok ("[" ++ propKeyText (.vnum (.int 5)) ++ "] = " ++ "\x27v\x27") :=
  c3_amended.1 defaultFormatOptions (.vnum (.int 5)) (.vstr "v") 0 "5" "\x27v\x27"
    rfl rfl rfl

/-! ## C4: the sequence branch of the deserializer -/

/-- Escaping never turns a non-Nil value into Nil. -/
theorem escape_nonnull (v w : Value) (h : v.isNullV = false)
    (hw : escape v = .ok w) : w.isNullV = false := by
  cases v with
  | vnull => exact absurd h (by decide)
  | vstr s =>
    injection hw with h2
    subst h2
    rfl
  | vobj fs =>
    rw [escape] at hw
    by_cases ht : (lookupField fs "replace").truthy = true
    · rw [if_pos ht] at hw
      exact Except.noConfusion hw
    · rw [if_neg ht] at hw
      injection hw with h2
      subst h2
      rfl
  | vbool b =>
    injection hw with h2
    subst h2
    rfl
  | vnum n =>
    injection hw with h2
    subst h2
    rfl
  | varr xs =>
    injection hw with h2
    subst h2
    rfl
  | vprop k v2 =>
    injection hw with h2
    subst h2
    rfl
  | vpair k v2 =>
    injection hw with h2
    subst h2
    rfl
  | vundef =>
    injection hw with h2
    subst h2
    rfl
  | vfun =>
    injection hw with h2
    subst h2
    rfl

/-- The claim-side sequence transform is the source's surviving-value
walk. -/
theorem seqElemsSpec_eq (vs : List Value) :
    seqElemsSpec vs = seqElems (vs.filter (fun v => !v.isNullV)) := by
  rw [seqElemsSpec]
  generalize (vs.filter (fun v => !v.isNullV)) = l
  induction l with
  | nil => rfl
  | cons v l ih =>
    rw [List.foldr_cons, ih]
    rfl

/-- Elements surviving the sequence walk are never Nil. -/
theorem seqElems_nonnull :
    ∀ (l : List Value), (∀ v ∈ l, v.isNullV = false) →
      ∀ elems, seqElems l = .ok elems → ∀ x ∈ elems, x.isNullV = false := by
  intro l
  induction l with
  | nil =>
    intro _ elems he x hx
    injection he with h2
    subst h2
    exact absurd hx (by simp)
  | cons v l ih =>
    intro hnn elems he x hx
    rw [seqElems] at he
    cases hge : (if (lookupPairField v "__internal_table_key").truthy then do
        let ev ← escape (lookupPairField v "value")
        Except.ok (.vprop (lookupPairField v "key") ev)
      else escape v) with
    | error e2 =>
      rw [hge, exceptBind_error] at he
      exact absurd he (by simp)
    | ok e =>
      rw [hge, exceptBind_ok] at he
      cases hes : seqElems l with
      | error e2 =>
        rw [hes, exceptBind_error] at he
        exact absurd he (by simp)
      | ok es =>
        rw [hes, exceptBind_ok] at he
        injection he with h2
        subst h2
        rcases List.mem_cons.mp hx with h3 | h3
        · subst h3
          by_cases ht : (lookupPairField v "__internal_table_key").truthy = true
          · rw [if_pos ht] at hge
            cases hev : escape (lookupPairField v "value") with
            | error e3 =>
              rw [hev, exceptBind_error] at hge
              exact absurd hge (by simp)
            | ok ev =>
              rw [hev, exceptBind_ok] at hge
              injection hge with h4
              subst h4
              rfl
          · rw [if_neg ht] at hge
            exact escape_nonnull v x (hnn v (by simp)) hge
        · exact ih (fun y hy => hnn y (by simp [hy])) es hes x h3

/-- C4: counterexample to the claim as written.  The unkeyed table
`\x7b\x7breplace = 1\x7d\x7d` is in the claim's scope, yet
deserialization raises instead of producing a Sequence: the escaping
step reaches the inner mapping's truthy `replace` binding and the
guarded `value.replace` call throws. -/
theorem c4_counterexample :
    firstFieldKeyed
      [.tableValue (.tableConstructorExpression
        [.tableKeyString (.identifier "replace") (.numericLiteral 1)])] = false
    ∧ luaAstToJson (.tableConstructorExpression
        [.tableValue (.tableConstructorExpression
          [.tableKeyString (.identifier "replace") (.numericLiteral 1)])])
      = .error "TypeError: value.replace is not a function" :=
  ⟨rfl, rfl⟩

/-- C4 (corrected).  For a table constructor whose first field carries
no key (including an empty field list), deserialization equals: the
fields' deserialized values in field order, Nil values skipped, fields
that carried the internal key/value pair construct wrapped as
PropertyEntry elements, string-escaping applied to every surviving
value (the pair's `value` component for a wrapped field) — with the
escaping step's `TypeError` raised the first time it reaches an object
carrying a truthy `replace` binding, so a Sequence is produced exactly
when no field fails.  No Nil ever appears among the produced elements.
The closed conjuncts exercise the Nil skip, the PropertyEntry wrap in a
mixed table, and the escaping. -/
theorem c4_amended :
    (∀ fields, firstFieldKeyed fields = false →
      luaAstToJson (.tableConstructorExpression fields)
        = (luaAstListToJson fields).bind
            (fun vs => (seqElemsSpec vs).map .varr))
    ∧ (∀ vs elems, seqElemsSpec vs = .ok elems →
        ∀ x ∈ elems, x.isNullV = false)
    ∧ luaAstToJson (.tableConstructorExpression
        [.tableValue .nilLiteral, .tableValue (.numericLiteral 1)])
        = .ok (.varr [.vnum (.int 1)])
    ∧ luaAstToJson (.tableConstructorExpression
        [.tableValue (.numericLiteral 1), .tableKey (.numericLiteral 5) (.stringLiteral "v")])
        = .ok (.varr [.vnum (.int 1), .vprop (.vnum (.int 5)) (.vstr "v")])
    ∧ luaAstToJson (.tableConstructorExpression [.tableValue (.stringLiteral "a\nb")])
        = .ok (.varr [.vstr "a\\nb"]) := by
  refine ⟨?_, ?_, rfl, rfl, rfl⟩
  · intro fields h
    rw [luaAstToJson, h]
    cases hl : luaAstListToJson fields with
    | error e => rfl
    | ok vs =>
      rw [if_neg (fun hc => Bool.noConfusion hc)]
      show (do
          let elems ← seqElems (vs.filter (fun v => !v.isNullV))
          Except.ok (Value.varr elems))
        = (seqElemsSpec vs).map Value.varr
      rw [seqElemsSpec_eq vs]
      cases hse : seqElems (vs.filter (fun v => !v.isNullV)) with
      | error e => rfl
      | ok elems => rfl
  · intro vs elems he x hx
    rw [seqElemsSpec_eq vs] at he
    refine seqElems_nonnull (vs.filter (fun v => !v.isNullV)) ?_ elems he x hx
    intro v hv
    rw [List.mem_filter] at hv
    simpa using hv.2

/-- C4 witness: the branch equation applied to the mixed table
`\x7b1, [5] = "v"\x7d`, and the non-Nil consequence at its element
list. -/
theorem c4_amended_witness :
    luaAstToJson (.tableConstructorExpression
        [.tableValue (.numericLiteral 1), .tableKey (.numericLiteral 5) (.stringLiteral "v")])
      = (luaAstListToJson
          [.tableValue (.numericLiteral 1), .tableKey (.numericLiteral 5) (.stringLiteral "v")]).bind
          (fun vs => (seqElemsSpec vs).map .varr) :=
  c4_amended.1
    [.tableValue (.numericLiteral 1), .tableKey (.numericLiteral 5) (.stringLiteral "v")] rfl

/-! ## C1: the mapping branch of the deserializer -/

/-- Assignment into an object keeps the key list's structure: replacing
an existing binding leaves the keys unchanged, a fresh key is appended. -/
theorem insertAssign_keys (fs : List (String × Value)) (k : String) (v : Value) :
    ((insertAssign fs k v).map Prod.fst = fs.map Prod.fst
      ∧ fs.any (fun p => p.1 == k) = true)
    ∨ ((insertAssign fs k v).map Prod.fst = fs.map Prod.fst ++ [k]
      ∧ fs.any (fun p => p.1 == k) = false) := by
  by_cases h : fs.any (fun p => p.1 == k) = true
  · left
    refine ⟨?_, h⟩
    rw [insertAssign, if_pos h, List.map_map]
    apply List.map_congr_left
    intro p _
    by_cases hp : p.1 = k
    · simp [hp]
    · simp [hp]
  · right
    refine ⟨?_, Bool.eq_false_iff.mpr h⟩
    rw [insertAssign, if_neg h, List.map_append]
    rfl

/-- Objects built by repeated assignment have pairwise-distinct keys. -/
theorem fromPairsList_nodup (ps : List (String × Value)) :
    ((fromPairsList ps).map Prod.fst).Nodup := by
  have main : ∀ (qs : List (String × Value)) (acc : List (String × Value)),
      (acc.map Prod.fst).Nodup →
      ((qs.foldl (fun a p => insertAssign a p.1 p.2) acc).map Prod.fst).Nodup := by
    intro qs
    induction qs with
    | nil => intro acc h; exact h
    | cons p rest ih =>
      intro acc h
      refine ih (insertAssign acc p.1 p.2) ?_
      rcases insertAssign_keys acc p.1 p.2 with ⟨heq, _⟩ | ⟨heq, hmem⟩
      · rw [heq]; exact h
      · rw [heq]
        rw [List.nodup_append]
        refine ⟨h, List.nodup_singleton _, ?_⟩
        intro a ha hb
        have : a = p.1 := by simpa using hb
        subst this
        rw [List.mem_map] at ha
        obtain ⟨q, hq, hq2⟩ := ha
        have hbe : (q.1 == p.1) = true := by simp [hq2]
        have hany : acc.any (fun r => r.1 == p.1) = true :=
          List.any_eq_true.mpr ⟨q, hq, hbe⟩
        rw [hany] at hmem
        cases hmem
  exact main ps [] (by simp)

/-- Assignment never empties an object. -/
theorem insertAssign_ne_nil (fs : List (String × Value)) (k : String) (v : Value) :
    insertAssign fs k v ≠ [] := by
  rw [insertAssign]
  by_cases h : fs.any (fun p => p.1 == k) = true
  · rw [if_pos h]
    intro hcon
    rw [List.map_eq_nil_iff] at hcon
    rw [hcon] at h
    simp at h
  · rw [if_neg h]
    intro hcon
    exact absurd (congrArg List.length hcon) (by simp)

/-- An object folded from a nonempty pair list is nonempty. -/
theorem fromPairsList_ne_nil (p : String × Value) (rest : List (String × Value)) :
    fromPairsList (p :: rest) ≠ [] := by
  have main : ∀ (qs : List (String × Value)) (acc : List (String × Value)),
      acc ≠ [] → qs.foldl (fun a q => insertAssign a q.1 q.2) acc ≠ [] := by
    intro qs
    induction qs with
    | nil => intro acc h; exact h
    | cons q rest ih =>
      intro acc _
      exact ih (insertAssign acc q.1 q.2) (insertAssign_ne_nil acc q.1 q.2)
  rw [fromPairsList]
  show (p :: rest).foldl (fun a q => insertAssign a q.1 q.2) [] ≠ []
  rw [List.foldl_cons]
  exact main rest (insertAssign [] p.1 p.2) (insertAssign_ne_nil [] p.1 p.2)

/-- C1 (corrected): counterexample.  A table constructor whose single
field is `[5] = "v"` has a keyed first field, so it takes the mapping
branch and yields the Mapping `\x7b"5": "v"\x7d` (the numeric key
coerced to a string by the object assignment) — not a Sequence holding
a PropertyEntry, as the claim asserts for non-identifier keys. -/
theorem c1_counterexample :
    luaAstToJson (.tableConstructorExpression
        [.tableKey (.numericLiteral 5) (.stringLiteral "v")])
      = .ok (.vobj [("5", .vstr "v")])
    ∧ luaAstToJson (.tableConstructorExpression
        [.tableKey (.numericLiteral 5) (.stringLiteral "v")])
      ≠ .ok (.varr [.vprop (.vnum (.int 5)) (.vstr "v")]) :=
  ⟨rfl, by
    intro h
    have h2 : Value.vobj [("5", .vstr "v")]
        = Value.varr [.vprop (.vnum (.int 5)) (.vstr "v")] := by injection h
    exact Value.noConfusion h2⟩

/-- C1 (corrected): amended claim.  For every table constructor whose
first field carries an explicit key, deserialization — when it
succeeds — produces a Mapping of key-unique ordered pairs —
string-escaping applied to each value, never to keys, and keys coerced
to strings — or an empty Sequence when the resulting mapping is empty;
a non-identifier key does not switch the result to a Sequence of
PropertyEntry: `\x7b[5] = "v"\x7d` yields the Mapping
`\x7b"5": "v"\x7d` (PropertyEntry wrapping only happens in the sequence
branch of a table whose first field carries no key).  The escaping step
is not total: a field value that itself deserializes to a mapping with
a truthy `replace` binding makes the guarded `value.replace` call throw
a `TypeError`, as the closed conjunct on `\x7b[1] = \x7breplace = 1\x7d\x7d`
shows.  The remaining closed conjuncts show the numeric-key coercion,
escaping applied to a value but not to a key, and a duplicate key
keeping its first position with its last value. -/
theorem c1_amended :
    (∀ fields ps, firstFieldKeyed fields = true →
        luaAstToJson (.tableConstructorExpression fields) = .ok (.vobj ps) →
        (ps.map Prod.fst).Nodup ∧ ps ≠ [])
    ∧ (∀ fields v, firstFieldKeyed fields = true →
        luaAstToJson (.tableConstructorExpression fields) = .ok v →
        (∃ ps, v = .vobj ps) ∨ v = .varr [])
    ∧ luaAstToJson (.tableConstructorExpression
        [.tableKey (.numericLiteral 5) (.stringLiteral "v")])
        = .ok (.vobj [("5", .vstr "v")])
    ∧ luaAstToJson (.tableConstructorExpression
        [.tableKeyString (.identifier "k") (.stringLiteral "a\nb")])
        = .ok (.vobj [("k", .vstr "a\\nb")])
    ∧ luaAstToJson (.tableConstructorExpression
        [.tableKey (.stringLiteral "a\nb") (.stringLiteral "x")])
        = .ok (.vobj [("a\nb", .vstr "x")])
    ∧ luaAstToJson (.tableConstructorExpression
        [.tableKeyString (.identifier "k") (.numericLiteral 1),
         .tableKeyString (.identifier "k") (.numericLiteral 2)])
        = .ok (.vobj [("k", .vnum (.int 2))])
    ∧ luaAstToJson (.tableConstructorExpression
        [.tableKey (.numericLiteral 1) (.tableConstructorExpression
          [.tableKeyString (.identifier "replace") (.numericLiteral 1)])])
        = .error "TypeError: value.replace is not a function" := by
  have unfolded : ∀ fields, firstFieldKeyed fields = true →
      luaAstToJson (.tableConstructorExpression fields) = (do
        let pairs ← luaAstFieldsToPairs fields
        let object := fromPairsList pairs
        .ok (if object.isEmpty then .varr [] else .vobj object)) := by
    intro fields h
    rw [luaAstToJson, h]
    rfl
  refine ⟨?_, ?_, rfl, rfl, rfl, rfl, rfl⟩
  · intro fields ps h hok
    rw [unfolded fields h] at hok
    cases hps : luaAstFieldsToPairs fields with
    | error e => rw [hps] at hok; simp at hok
    | ok pairs =>
      rw [hps] at hok
      simp only [exceptBind_ok] at hok
      by_cases he : (fromPairsList pairs).isEmpty = true
      · rw [if_pos he] at hok
        injection hok with h2
        exact Value.noConfusion h2
      · rw [if_neg he] at hok
        injection hok with h2
        injection h2 with h3
        subst h3
        refine ⟨fromPairsList_nodup pairs, ?_⟩
        intro hnil
        exact he (by simp [hnil])
  · intro fields v h hok
    rw [unfolded fields h] at hok
    cases hps : luaAstFieldsToPairs fields with
    | error e => rw [hps] at hok; simp at hok
    | ok pairs =>
      rw [hps] at hok
      simp only [exceptBind_ok] at hok
      by_cases he : (fromPairsList pairs).isEmpty = true
      · rw [if_pos he] at hok
        injection hok with h2
        right
        exact h2.symm
      · rw [if_neg he] at hok
        injection hok with h2
        left
        exact ⟨fromPairsList pairs, h2.symm⟩

/-- C1 witness: the key-uniqueness and nonemptiness consequences at the
concrete table `\x7b[5] = "v"\x7d`. -/
theorem c1_amended_witness :
    (([("5", Value.vstr "v")] : List (String × Value)).map Prod.fst).Nodup
    ∧ ([("5", Value.vstr "v")] : List (String × Value)) ≠ [] :=
  c1_amended.1 [.tableKey (.numericLiteral 5) (.stringLiteral "v")]
    [("5", .vstr "v")] rfl rfl

/-! ## C9: error characterizations -/

/-- Whitespace prefixes are skipped. -/
theorem skipWs_ws_drop :
    ∀ (ws : List Char), ws.all isWsChar = true →
      ∀ s, skipWs (ws ++ s) = skipWs s := by
  intro ws
  induction ws with
  | nil => intro _ s; rfl
  | cons c cs ih =>
    intro h s
    rw [List.all_cons, Bool.and_eq_true] at h
    show skipWs (c :: (cs ++ s)) = skipWs s
    rw [skipWs, if_pos h.1]
    exact ih h.2 s

/-- Repeating whitespace-only text yields whitespace-only text. -/
theorem jsRepeat_all (s : String) (n : Int) (p : Char → Bool)
    (h : s.data.all p = true) : (jsRepeat s n).data.all p = true := by
  show ((List.replicate n.toNat s.data).flatten.all p) = true
  rw [List.all_flatten, List.all_eq_true]
  intro l hl
  rw [List.eq_of_mem_replicate hl]
  exact h

/-- The indent string of the default options is whitespace. -/
theorem ind_all_ws (d : Nat) :
    (ind defaultFormatOptions d).data.all isWsChar = true := by
  show (jsRepeat " " ((2 : Int) * (d : Int))).data.all isWsChar = true
  exact jsRepeat_all " " _ isWsChar (by decide)

/-- Skipping a rendered newline-plus-indent prefix. -/
theorem skipWs_eol_ind (d : Nat) (s : List Char) :
    skipWs (("\n" ++ ind defaultFormatOptions d).data ++ s) = skipWs s := by
  rw [String.data_append]
  rw [List.append_assoc]
  rw [show ("\n" : String).data = ['\n'] from rfl]
  show skipWs (['\n'] ++ ((ind defaultFormatOptions d).data ++ s)) = skipWs s
  rw [skipWs_ws_drop ['\n'] (by decide)]
  rw [skipWs_ws_drop _ (ind_all_ws d)]

/-- Characters of a brace-prefixed text. -/
theorem brace_data (s : String) : ("\x7b" ++ s).data = '\x7b' :: s.data := rfl

end LuaJson
